import Mathlib

/-! Computer-club day simulator (`src/main.cpp`)

A shallow embedding of the validator (`main`) and of the event-driven
`Simulator` of `src/main.cpp`, followed by theorems about them.

Conventions of the embedding

* a `std::string` is a `List Char` (`Str`); one `Char` stands for one `char`;
* the input file is the list of lines that successive `std::getline` calls
  return;
* `std::cout` is the list of lines written, each one terminated by `'\n'` in
  the program;
* `int` and `long long` values are `Int`; C++ `/` and `%` are `Int.tdiv` and
  `Int.tmod`; the conversions that can leave the machine range
  (`operator>>(int&)`, `std::stoll`, `std::stoi`) check it explicitly, and
  `roundUpHours32` forms the sum of `roundUpHours` in 32-bit `int`;
* a `std::istringstream` is the unread characters plus `eofbit` and `failbit`.
-/

namespace Yadro

/-- A `std::string`. -/
abbrev Str := List Char

/-! ## Characters and number formatting -/

/-- `::isdigit` in the "C" locale. -/
def isDigit (c : Char) : Bool := decide (48 ≤ c.toNat) && decide (c.toNat ≤ 57)

/-- `std::isspace` in the "C" locale: space, `\t`, `\n`, `\v`, `\f`, `\r`. -/
def isSpace (c : Char) : Bool :=
  decide (c.toNat = 32) || (decide (9 ≤ c.toNat) && decide (c.toNat ≤ 13))

/-- The decimal digit character of `d < 10`. -/
def digitChar (d : Nat) : Char := Char.ofNat (48 + d)

/-- The value of a decimal digit character. -/
def digitVal (c : Char) : Nat := c.toNat - 48

/-- Decimal digits of `n` in front of `acc`, most significant first; `fuel`
bounds the number of digits produced. -/
def natDigits : Nat → Nat → List Char → List Char
  | 0, _, acc => acc
  | fuel + 1, n, acc =>
    if n / 10 = 0 then digitChar (n % 10) :: acc
    else natDigits fuel (n / 10) (digitChar (n % 10) :: acc)

/-- Decimal rendering of a natural number, as `operator<<` prints it. -/
def showNat (n : Nat) : Str := natDigits (n + 1) n []

/-- Decimal rendering of a signed integer, as `operator<<` and
`std::to_string` print it. -/
def showInt (i : Int) : Str :=
  if i < 0 then '-' :: showNat i.natAbs else showNat i.natAbs

/-- The effect of `std::setw(2) << std::setfill('0')` on the next number:
fill characters are put in front until the field is two characters wide. -/
def pad2 (s : Str) : Str := List.replicate (2 - s.length) '0' ++ s

/-- Value of a string of decimal digits. -/
def decVal (s : Str) : Nat := s.foldl (fun acc c => acc * 10 + digitVal c) 0

/-! ## `std::istringstream` -/

/-- The part of a `std::istringstream` the program observes. -/
structure IStream where
  buf : Str
  eofbit : Bool := false
  failbit : Bool := false
deriving DecidableEq, Repr

namespace IStream

/-- `good()`. -/
def good (s : IStream) : Bool := !s.eofbit && !s.failbit

/-- `operator bool`, that is `!fail()`. -/
def ok (s : IStream) : Bool := !s.failbit

/-- The `sentry` of a formatted input function (it skips white space). The
boolean says whether extraction may proceed. -/
def sentry (s : IStream) : IStream × Bool :=
  if !s.good then ({ s with failbit := true }, false)
  else
    let r := s.buf.dropWhile isSpace
    if r.isEmpty then ({ buf := [], eofbit := true, failbit := true }, false)
    else ({ s with buf := r }, true)

/-- `is >> str` for a `std::string`. -/
def readString (s : IStream) : IStream × Str :=
  match s.sentry with
  | (s1, false) => (s1, [])
  | (s1, true) =>
    let tok := s1.buf.takeWhile (fun c => !isSpace c)
    let rest := s1.buf.dropWhile (fun c => !isSpace c)
    ({ buf := rest, eofbit := rest.isEmpty, failbit := tok.isEmpty }, tok)

/-- `is >> n` for an `int`: an optional sign and the longest run of decimal
digits; `failbit` when there is no digit or the value does not fit an `int`
(the value stored is then 0, respectively the nearest bound). -/
def readInt (s : IStream) : IStream × Int :=
  match s.sentry with
  | (s1, false) => (s1, 0)
  | (s1, true) =>
    let neg := s1.buf.head? == some '-'
    let body := if s1.buf.head? == some '-' || s1.buf.head? == some '+'
                then s1.buf.tail else s1.buf
    let ds := body.takeWhile isDigit
    let rest := body.dropWhile isDigit
    if ds.isEmpty then ({ buf := rest, eofbit := rest.isEmpty, failbit := true }, 0)
    else
      let v : Int := if neg then -(decVal ds : Int) else (decVal ds : Int)
      if v < -2147483648 then
        ({ buf := rest, eofbit := rest.isEmpty, failbit := true }, -2147483648)
      else if v > 2147483647 then
        ({ buf := rest, eofbit := rest.isEmpty, failbit := true }, 2147483647)
      else ({ buf := rest, eofbit := rest.isEmpty, failbit := false }, v)

/-- `is >> std::ws`: an unformatted input function, so its sentry sets
`failbit` on a stream that is not `good()`; otherwise white space is
discarded and `eofbit` (not `failbit`) is set when the characters run out. -/
def ws (s : IStream) : IStream :=
  if !s.good then { s with failbit := true }
  else
    let r := s.buf.dropWhile isSpace
    { s with buf := r, eofbit := r.isEmpty }

end IStream

/-! ## `Time` -/

deriving instance DecidableEq for Except

/-- `struct Time`. -/
structure Time where
  minutes : Int := 0
deriving DecidableEq, Repr

/-- `Time::parse`: the regular expression `(\d{2}):(\d{2})` must match the
whole string, then the hour and minute ranges are checked. -/
def Time.parse (s : Str) : Option Time :=
  match s with
  | [h1, h2, c, m1, m2] =>
    if isDigit h1 && isDigit h2 && c == ':' && isDigit m1 && isDigit m2 then
      let hh : Int := decVal [h1, h2]
      let mm : Int := decVal [m1, m2]
      if hh < 0 || hh > 23 || mm < 0 || mm > 59 then none
      else some { minutes := hh * 60 + mm }
    else none
  | _ => none

/-- `Time::str`. -/
def Time.str (t : Time) : Str :=
  let hh := t.minutes.tdiv 60
  let mm := t.minutes.tmod 60
  pad2 (showInt hh) ++ ':' :: pad2 (showInt mm)

/-! ## `parsePositiveInt` -/

/-- `std::stoll` on a non-empty string of digits: the value, or nothing when
`std::out_of_range` is thrown. -/
def stoll (s : Str) : Option Int :=
  if decVal s > 9223372036854775807 then none else some (decVal s : Int)

/-- `parsePositiveInt`: the value when the function returns `true`. -/
def parsePositiveInt (s : Str) : Option Int :=
  if s.isEmpty || !s.all isDigit then none
  else
    match stoll s with
    | some value => if value > 0 then some value else none
    | none => none

/-! ## Simulator data -/

/-- `struct Event`. -/
structure Event where
  t : Time := {}
  id : Int := 0
  params : List Str := []
  rawLine : Str := []
  lineNo : Int := 0
deriving DecidableEq, Repr

/-- `struct TableInfo`; an empty `occupant` means the table is free. -/
structure TableInfo where
  occupant : Str := []
  since : Time := {}
  busyMin : Int := 0
  revenue : Int := 0
deriving DecidableEq, Repr

/-- `struct ClientInfo`. -/
structure ClientInfo where
  seated : Bool := false
  table : Int := -1
  seatedSince : Time := {}
deriving DecidableEq, Repr

/-- `roundUpHours` on mathematical integers; C++ integer division truncates
toward zero. This is what the function returns whenever the sum `minutes + 59`
fits an `int`, in particular for every duration the simulator forms (a
difference of two times of day, at most 1439 in absolute value); see
`roundUpHours32` for the sum formed in 32-bit `int`. -/
def roundUpHours (minutes : Int) : Int := (minutes + 59).tdiv 60

/-- The value of an `int` expression whose mathematical value is `x`, on a
target where `int` has 32 bits and arithmetic wraps around. -/
def wrapInt32 (x : Int) : Int := (x + 2147483648) % 4294967296 - 2147483648

/-- `roundUpHours` as the machine evaluates it on an `int` argument: the sum
`minutes + 59` is formed in 32-bit `int` before the division. -/
def roundUpHours32 (minutes : Int) : Int := (wrapInt32 (minutes + 59)).tdiv 60

/-- The `std::unordered_map<std::string, ClientInfo>`: an association list
with at most one entry per key. Its iteration order is never observed, since
`run` sorts the keys. -/
abbrev Clients := List (Str × ClientInfo)

/-- `clients.find(name)`: the mapped value, or nothing for `end()`. -/
def mapFind : Clients → Str → Option ClientInfo
  | [], _ => none
  | (k, v) :: rest, name => if k = name then some v else mapFind rest name

/-- `clients.count(name)` as a truth value. -/
def mapCount (cs : Clients) (name : Str) : Bool := (mapFind cs name).isSome

/-- `clients.erase(it)` for the entry of `name`. -/
def mapErase (cs : Clients) (name : Str) : Clients :=
  cs.filter (fun p => decide (p.1 ≠ name))

/-- `clients[name] = v` (also used for writes through a reference obtained
from `clients[name]` or `find`): the entry is replaced, or added when the key
is absent. -/
def mapSet : Clients → Str → ClientInfo → Clients
  | [], name, v => [(name, v)]
  | (k, w) :: rest, name, v =>
    if k = name then (k, v) :: rest else (k, w) :: mapSet rest name v

/-- The value `clients[name]` reads: a default-constructed `ClientInfo`
when the key is absent. -/
def mapIndex (cs : Clients) (name : Str) : ClientInfo :=
  (mapFind cs name).getD {}

/-- The map after evaluating `clients[name]`: a default entry is inserted
when the key is absent. -/
def mapTouch (cs : Clients) (name : Str) : Clients :=
  if mapCount cs name then cs else mapSet cs name {}

/-- `operator<` of `std::string`: lexicographic on character codes. -/
def strLt : Str → Str → Bool
  | [], [] => false
  | [], _ :: _ => true
  | _ :: _, [] => false
  | a :: as, b :: bs =>
    if a.toNat < b.toNat then true
    else if b.toNat < a.toNat then false
    else strLt as bs

/-- Insertion of a name into an ascending list. -/
def insertName (x : Str) : List Str → List Str
  | [] => [x]
  | y :: ys => if strLt y x then y :: insertName x ys else x :: y :: ys

/-- `std::sort(names.begin(), names.end())`. -/
def sortNames (names : List Str) : List Str := names.foldr insertName []

/-- `std::stoi`: leading white space, an optional sign, decimal digits;
nothing when `std::invalid_argument` or `std::out_of_range` is thrown. -/
def stoi (s : Str) : Option Int :=
  let r := s.dropWhile isSpace
  let neg := r.head? == some '-'
  let body := if r.head? == some '-' || r.head? == some '+' then r.tail else r
  let ds := body.takeWhile isDigit
  if ds.isEmpty then none
  else
    let v : Int := if neg then -(decVal ds : Int) else (decVal ds : Int)
    if v < -2147483648 || v > 2147483647 then none else some v

/-- `static_cast<size_t>(n)` for an `int` on a 64-bit target. -/
def sizeT (n : Int) : Nat := (n % 18446744073709551616).toNat

/-- `class Simulator`: its data members. -/
structure Simulator where
  N : Int
  openTime : Time
  closeTime : Time
  pricePerHour : Int
  tables : List TableInfo
  clients : Clients := []
  waiting : List Str := []
  events : List Event := []
  currentTime : Time := {}
  out : List Str := []
deriving DecidableEq, Repr

namespace Simulator

/-- The constructor: `tables(nTables + 1)`, everything else empty. -/
def init (nTables : Int) (openT closeT : Time) (price : Int) : Simulator :=
  { N := nTables, openTime := openT, closeTime := closeT, pricePerHour := price,
    tables := List.replicate (nTables + 1).toNat {} }

/-- `addInputEvent`. -/
def addInputEvent (s : Simulator) (e : Event) : Simulator :=
  { s with events := s.events ++ [e] }

/-- `formatMinutes`. -/
def formatMinutes (m : Int) : Str :=
  pad2 (showInt (m.tdiv 60)) ++ ':' :: pad2 (showInt (m.tmod 60))

/-- `error`: one line `<currentTime> 13 <msg>`. -/
def error (s : Simulator) (msg : Str) : Simulator :=
  { s with out := s.out ++ [s.currentTime.str ++ " 13 ".toList ++ msg] }

/-- `inQueue`: linear scan of a copy of the queue. -/
def inQueue (s : Simulator) (name : Str) : Bool :=
  s.waiting.any (fun x => decide (x = name))

/-- `removeFromQueue`: the queue is rebuilt without `name`. -/
def removeFromQueue (s : Simulator) (name : Str) : Simulator :=
  { s with waiting := s.waiting.filter (fun x => decide (x ≠ name)) }

/-- `tables[i]` for an `int` index. -/
def tableAt (tables : List TableInfo) (i : Int) : TableInfo :=
  tables.getD i.toNat {}

/-- The settlement block that `run`, `handleSit` and `handleLeave` each
contain: `busyMin += dur; revenue += roundUpHours(dur) * pricePerHour;
occupant.clear()` on `tables[i]`. -/
def settle (tables : List TableInfo) (i : Int) (dur price : Int) : List TableInfo :=
  let tbl := tableAt tables i
  tables.set i.toNat
    { tbl with busyMin := tbl.busyMin + dur,
               revenue := tbl.revenue + roundUpHours dur * price,
               occupant := [] }

/-- `tables[i].occupant = name`. -/
def setOccupant (tables : List TableInfo) (i : Int) (name : Str) : List TableInfo :=
  tables.set i.toNat { tableAt tables i with occupant := name }

/-- `handleArrival`. -/
def handleArrival (s : Simulator) (e : Event) : Simulator :=
  let name := e.params.getD 0 []
  if mapCount s.clients name || s.inQueue name then s.error "YouShallNotPass".toList
  else if s.currentTime.minutes < s.openTime.minutes ||
          s.currentTime.minutes ≥ s.closeTime.minutes then
    s.error "NotOpenYet".toList
  else { s with clients := mapSet s.clients name {} }

/-- `handleSit`; nothing when `std::stoi` throws. -/
def handleSit (s : Simulator) (e : Event) : Option Simulator :=
  let name := e.params.getD 0 []
  match stoi (e.params.getD 1 []) with
  | none => none
  | some tableNum =>
    match mapFind s.clients name with
    | none => some (s.error "ClientUnknown".toList)
    | some ci =>
      if tableNum < 1 || tableNum > s.N then some (s.error "PlaceIsBusy".toList)
      else
        let tbl := tableAt s.tables tableNum
        if !tbl.occupant.isEmpty && tbl.occupant ≠ name then
          some (s.error "PlaceIsBusy".toList)
        else if ci.seated && ci.table = tableNum then
          some (s.error "PlaceIsBusy".toList)
        else
          let s1 : Simulator :=
            if ci.seated then
              let dur := s.currentTime.minutes - ci.seatedSince.minutes
              { s with tables := settle s.tables ci.table dur s.pricePerHour }
            else s.removeFromQueue name
          some { s1 with
            tables := setOccupant s1.tables tableNum name,
            clients := mapSet s1.clients name
              { seated := true, seatedSince := s.currentTime, table := tableNum } }

/-- The loop of `handleWait` that looks for a free table among `1..N`. -/
def freeExists (s : Simulator) : Bool :=
  (List.range s.N.toNat).any (fun k => (tableAt s.tables (k + 1 : Nat)).occupant.isEmpty)

/-- `handleWait`. -/
def handleWait (s : Simulator) (e : Event) : Simulator :=
  let name := e.params.getD 0 []
  if s.freeExists then s.error "ICanWaitNoLonger!".toList
  else if s.waiting.length ≥ sizeT s.N then
    { s with out := s.out ++ [s.currentTime.str ++ " 11 ".toList ++ name] }
  else
    { s with
      clients := if !mapCount s.clients name then mapSet s.clients name {} else s.clients,
      waiting := s.waiting ++ [name] }

/-- The first half of `handleLeave`, for a client found with record `ci`: the
table of a seated client is settled and freed, the client is erased from the
map and removed from the queue. -/
def vacate (s : Simulator) (name : Str) (ci : ClientInfo) : Simulator :=
  let tables1 :=
    if ci.seated then
      settle s.tables ci.table (s.currentTime.minutes - ci.seatedSince.minutes)
        s.pricePerHour
    else s.tables
  ({ s with tables := tables1, clients := mapErase s.clients name }).removeFromQueue name

/-- The second half of `handleLeave`: when a table was freed and the queue is
not empty, its head is seated at that table and a line `12` is written. -/
def seatNext (s1 : Simulator) (freedTable : Int) : Simulator :=
  if freedTable ≠ -1 && !s1.waiting.isEmpty then
    let next := s1.waiting.headD []
    { s1 with
      waiting := s1.waiting.tail,
      tables := setOccupant s1.tables freedTable next,
      clients := mapSet s1.clients next
        { mapIndex s1.clients next with
          seated := true, table := freedTable, seatedSince := s1.currentTime },
      out := s1.out ++ [s1.currentTime.str ++ " 12 ".toList ++ next ++
                        ' ' :: showInt freedTable] }
  else s1

/-- `handleLeave`. -/
def handleLeave (s : Simulator) (e : Event) : Simulator :=
  let name := e.params.getD 0 []
  match mapFind s.clients name with
  | none => s.error "ClientUnknown".toList
  | some ci =>
    let freedTable : Int := if ci.seated then ci.table else -1
    (s.vacate name ci).seatNext freedTable

/-- The body of the event loop of `run`: set the clock, echo the line,
dispatch on the event id. -/
def step (s : Simulator) (ev : Event) : Option Simulator :=
  let s1 := { s with currentTime := ev.t, out := s.out ++ [ev.rawLine] }
  if ev.id = 1 then some (s1.handleArrival ev)
  else if ev.id = 2 then s1.handleSit ev
  else if ev.id = 3 then some (s1.handleWait ev)
  else if ev.id = 4 then some (s1.handleLeave ev)
  else some s1

/-- The event loop of `run`. -/
def processEvents : Simulator → List Event → Option Simulator
  | s, [] => some s
  | s, ev :: evs =>
    match s.step ev with
    | none => none
    | some s1 => processEvents s1 evs

/-- The body of the closing loop of `run` for one client name. -/
def closeClient (s : Simulator) (name : Str) : Simulator :=
  let ci := mapIndex s.clients name
  let s1 := { s with clients := mapTouch s.clients name }
  let s2 : Simulator :=
    if ci.seated then
      { s1 with tables := settle s1.tables ci.table
                  (s1.closeTime.minutes - ci.seatedSince.minutes) s1.pricePerHour }
    else s1
  { s2 with out := s2.out ++ [s2.closeTime.str ++ " 11 ".toList ++ name] }

/-- The end-of-day part of `run`: the clock is set to the closing time and
the remaining clients are processed in sorted order. -/
def closeDay (s : Simulator) : Simulator :=
  let s1 := { s with currentTime := s.closeTime }
  if !s1.clients.isEmpty then
    (sortNames (s1.clients.map Prod.fst)).foldl closeClient s1
  else s1

/-- The report line of table `i`. -/
def reportLine (s : Simulator) (i : Nat) : Str :=
  showInt i ++ ' ' :: showInt (tableAt s.tables i).revenue ++
    ' ' :: formatMinutes (tableAt s.tables i).busyMin

/-- The report loop of `run`, for `i = 1 .. N`. -/
def report (s : Simulator) : List Str :=
  (List.range s.N.toNat).map (fun k => s.reportLine (k + 1))

/-- `run`: the final state, whose `out` is what is written to `std::cout`;
nothing when an exception leaves the function. -/
def run (s : Simulator) : Option Simulator :=
  let s0 := { s with out := s.out ++ [s.openTime.str] }
  match s0.processEvents s0.events with
  | none => none
  | some s1 =>
    let s2 := s1.closeDay
    let s3 := { s2 with out := s2.out ++ [s2.closeTime.str] }
    some { s3 with out := s3.out ++ s3.report }

end Simulator

/-! ## `main`: the validator -/

/-- The regular expression `^[a-z0-9_-]+$`. -/
def nameChar (c : Char) : Bool :=
  (decide (97 ≤ c.toNat) && decide (c.toNat ≤ 122)) || isDigit c || c == '_' || c == '-'

/-- `std::regex_match(name, nameRE)`. -/
def validName (name : Str) : Bool := !name.isEmpty && name.all nameChar

/-- The condition `(iss >> std::ws && !iss.eof())`. -/
def trailing (iss : IStream) : Bool := iss.ws.ok && !iss.ws.eofbit

/-- The argument check shared verbatim by `case 1`, `case 3` and `case 4`:
the parameter list on success. -/
def parseNameArgs (iss : IStream) : Option (List Str) :=
  let r := iss.readString
  if !r.1.ok || !validName r.2 || trailing r.1 then none else some [r.2]

/-- The argument check of `case 2`. -/
def parseSitArgs (nTables : Int) (iss : IStream) : Option (List Str) :=
  let r1 := iss.readString
  let r2 := r1.1.readInt
  if !r2.1.ok || !validName r1.2 || r2.2 ≤ 0 || r2.2 > nTables || trailing r2.1 then none
  else some [r1.2, showInt r2.2]

/-- The body of the event loop of `main` for one non-empty line: the event
added to the simulator, or nothing when the line number is printed. -/
def parseEventLine (nTables : Int) (prevEventTime : Time) (lineNo : Int) (line : Str) :
    Option Event :=
  let r1 := IStream.readString { buf := line }
  let r2 := r1.1.readInt
  if !r2.1.ok then none
  else
    match Time.parse r1.2 with
    | none => none
    | some evTime =>
      if evTime.minutes < prevEventTime.minutes then none
      else
        let args :=
          if r2.2 = 1 then parseNameArgs r2.1
          else if r2.2 = 2 then parseSitArgs nTables r2.1
          else if r2.2 = 3 then parseNameArgs r2.1
          else if r2.2 = 4 then parseNameArgs r2.1
          else none
        match args with
        | none => none
        | some params =>
          some { t := evTime, id := r2.2, params := params, rawLine := line, lineNo := lineNo }

/-- The event loop of `main`: empty lines are skipped without counting, every
other line increments `lineNo` and is checked; the result is the rejected line
number or the simulator with all events added. -/
def readEvents (nTables : Int) : List Str → Int → Time → Simulator → Except Int Simulator
  | [], _, _, sim => .ok sim
  | line :: rest, lineNo, prevEventTime, sim =>
    if line.isEmpty then readEvents nTables rest lineNo prevEventTime sim
    else
      match parseEventLine nTables prevEventTime (lineNo + 1) line with
      | none => .error (lineNo + 1)
      | some ev => readEvents nTables rest (lineNo + 1) ev.t (sim.addInputEvent ev)

/-- The header of an accepted script. -/
structure Header where
  nTables : Int
  openTime : Time
  closeTime : Time
  price : Int
deriving DecidableEq, Repr

/-- The check of line 1 in `main`: the table count when the line is accepted. -/
def readTableCount (line : Str) : Option Int :=
  match parsePositiveInt line with
  | none => none
  | some nTablesLL => if nTablesLL > 1000 then none else some nTablesLL

/-- The check of line 2 in `main`: the opening and closing time when the line
is accepted. -/
def readHours (line : Str) : Option (Time × Time) :=
  let r1 := IStream.readString { buf := line }
  let r2 := r1.1.readString
  if !r2.1.ok then none
  else
    match Time.parse r1.2, Time.parse r2.2 with
    | some openTime, some closeTime =>
      if openTime.minutes ≥ closeTime.minutes then none else some (openTime, closeTime)
    | _, _ => none

/-- The check of line 3 in `main`: the price when the line is accepted. -/
def readPrice (line : Str) : Option Int :=
  match parsePositiveInt line with
  | none => none
  | some price => if price > 1000000000 then none else some price

/-- Lines 1 to 3 of `main`: the header and the remaining lines, or the line
number that is printed (a line that cannot be read is reported like a line
that fails its check). -/
def parseHeader (input : List Str) : Except Int (Header × List Str) :=
  match input with
  | [] => .error 1
  | line1 :: rest1 =>
    match readTableCount line1 with
    | none => .error 1
    | some nTables =>
      match rest1 with
      | [] => .error 2
      | line2 :: rest2 =>
        match readHours line2 with
        | none => .error 2
        | some (openTime, closeTime) =>
          match rest2 with
          | [] => .error 3
          | line3 :: rest3 =>
            match readPrice line3 with
            | none => .error 3
            | some price => .ok (⟨nTables, openTime, closeTime, price⟩, rest3)

/-- The validating part of `main`: the simulator handed to `run`, or the line
number that is printed. -/
def parseInput (input : List Str) : Except Int Simulator :=
  match parseHeader input with
  | .error n => .error n
  | .ok (h, rest) =>
    readEvents h.nTables rest 3 ⟨0⟩ (Simulator.init h.nTables h.openTime h.closeTime h.price)

/-- What `main` writes to `std::cout` for the given input lines: the line
number alone when validation fails, otherwise the buffer filled by `run`
(nothing if `run` is left by an exception). -/
def main (input : List Str) : List Str :=
  match parseInput input with
  | .error lineNo => [showInt lineNo]
  | .ok sim =>
    match sim.run with
    | some s => s.out
    | none => []

/-! ## Notions used to state the properties -/

/-- The non-empty lines of the event section, in file order. -/
def eventLines (rest : List Str) : List Str := rest.filter (fun l => !l.isEmpty)

/-- All the lines are accepted one after the other, the first one with
`prev` as the previous event time: the time of the last event (or `prev`). -/
def lastAccepted (nTables : Int) : Time → List Str → Option Time
  | prev, [] => some prev
  | prev, l :: ls =>
    match parseEventLine nTables prev 0 l with
    | none => none
    | some ev => lastAccepted nTables ev.t ls

/-- Line `n` is the first offending line of the input: header lines are
numbered 1, 2, 3 (a missing header line offends like a malformed one); after a
valid header, line `3 + k` is the `k`-th non-empty line of the event section,
and it offends when the non-empty lines before it are accepted in sequence and
it is rejected after them. -/
def FirstOffending (input : List Str) (n : Int) : Prop :=
  (n = 1 ∧ input.head?.bind readTableCount = none) ∨
  (n = 2 ∧ (input.head?.bind readTableCount).isSome ∧ input[1]?.bind readHours = none) ∨
  (n = 3 ∧ (input.head?.bind readTableCount).isSome ∧ (input[1]?.bind readHours).isSome ∧
    input[2]?.bind readPrice = none) ∨
  (∃ (nTables : Int) (pre : List Str) (bad : Str) (post : List Str) (tl : Time),
    input.head?.bind readTableCount = some nTables ∧
    (input[1]?.bind readHours).isSome ∧ (input[2]?.bind readPrice).isSome ∧
    eventLines (input.drop 3) = pre ++ bad :: post ∧
    lastAccepted nTables ⟨0⟩ pre = some tl ∧
    parseEventLine nTables tl n bad = none ∧
    n = 3 + ((pre.length : Int) + 1))

/-- The white-space separated tokens of a line; `cur` is the token being read. -/
def splitWsFrom : List Char → Str → List Str
  | [], cur => if cur.isEmpty then [] else [cur]
  | c :: cs, cur =>
    if isSpace c then
      if cur.isEmpty then splitWsFrom cs [] else cur :: splitWsFrom cs []
    else splitWsFrom cs (cur ++ [c])

/-- The line split on white space. -/
def splitWs (line : Str) : List Str := splitWsFrom line []

/-- The first white-space separated token of a line, as `iss >> str` reads
it: the opening time of header line 2, the timestamp of an event line. -/
def firstToken (line : Str) : Str := (IStream.readString { buf := line }).2

/-- The second token of a line, as `iss >> str1 >> str2` reads it: the closing
time of header line 2. -/
def secondToken (line : Str) : Str := ((IStream.readString { buf := line }).1.readString).2

/-- The condition the claim puts on line 1: a non-empty string of decimal
digits whose value is between 1 and 1000. -/
def ValidCount (line1 : Str) : Prop :=
  line1 ≠ [] ∧ (∀ c ∈ line1, isDigit c = true) ∧ 1 ≤ decVal line1 ∧ decVal line1 ≤ 1000

/-- Table `T` has been settled for a stay of `d` minutes at `price` per
hour: its revenue grew by the ceiling of `d / 60` times the price, its
occupied minutes grew by `d`, and the revenue and occupied minutes of every
other table are what they were. -/
def Settled (old new : List TableInfo) (T d price : Int) : Prop :=
  (Simulator.tableAt new T).revenue =
    (Simulator.tableAt old T).revenue + ⌈(d : ℚ) / 60⌉ * price ∧
  (Simulator.tableAt new T).busyMin = (Simulator.tableAt old T).busyMin + d ∧
  ∀ i : Int, 0 ≤ i → i ≠ T →
    (Simulator.tableAt new i).revenue = (Simulator.tableAt old i).revenue ∧
    (Simulator.tableAt new i).busyMin = (Simulator.tableAt old i).busyMin

/-- The script of the second scenario, with a later event added: ann arrives
twice, then sits at table 1. -/
def scenario2 : List Str :=
  ["1".toList, "08:00 09:00".toList, "100".toList, "08:00 1 ann".toList,
   "08:01 1 ann".toList, "08:02 2 ann 1".toList]

/-- A state with two tables at 08:50 in which ann has been seated at table 1
since 08:15. -/
def seatedState : Simulator :=
  { Simulator.init 2 ⟨480⟩ ⟨540⟩ 100 with
    tables := [{}, { occupant := "ann".toList }, {}],
    clients := [("ann".toList, { seated := true, table := 1, seatedSince := ⟨495⟩ })],
    currentTime := ⟨530⟩ }

/-- The table argument of a Sit event can be read back by `std::stoi`. -/
def Event.sitOk (ev : Event) : Prop := ev.id = 2 → (stoi (ev.params.getD 1 [])).isSome

/-- The configuration of `s` (table count, hours, price, event list) is that
of `s0`, and the output of `s` is the output of `s0` followed by `l`. -/
def Simulator.Emits (s0 s : Simulator) (l : List Str) : Prop :=
  s.N = s0.N ∧ s.openTime = s0.openTime ∧ s.closeTime = s0.closeTime ∧
  s.pricePerHour = s0.pricePerHour ∧ s.events = s0.events ∧ s.out = s0.out ++ l

/-- The script of the first scenario. -/
def scenario1 : List Str :=
  ["1".toList, "08:00 09:00".toList, "100".toList, "08:10 1 ann".toList,
   "08:15 2 ann 1".toList, "08:50 4 ann".toList]

/-! ## Notions used for the state machine properties -/

/-- An event as the validator of `main` builds it: id 1, 3 or 4 with one valid
name, or id 2 with a valid name and the decimal rendering of a table number
in `1 .. nTables`. -/
def Event.Valid (nTables : Int) (ev : Event) : Prop :=
  ((ev.id = 1 ∨ ev.id = 3 ∨ ev.id = 4) ∧
    ∃ name : Str, validName name = true ∧ ev.params = [name]) ∨
  (ev.id = 2 ∧ ∃ (name : Str) (t : Int), validName name = true ∧ 1 ≤ t ∧ t ≤ nTables ∧
    ev.params = [name, showInt t])

/-- The line is an error line written at time `t`: `<t> 13 <msg>`. -/
def IsErrorLine (t : Time) (line : Str) : Prop :=
  ∃ msg : Str, line = t.str ++ " 13 ".toList ++ msg

/-- The two ways a handler can end: by `error` alone, or without writing any
error line. -/
def Simulator.ErrorOrClean (s s1 : Simulator) : Prop :=
  (∃ msg, s1 = s.error msg) ∨
  (∃ l, s1.out = s.out ++ l ∧ ∀ line ∈ l, ¬ IsErrorLine s.currentTime line)

/-- The condition under which a Sit of the present client `name`, with record
`ci`, at table `t` is refused: the table is occupied by a different client, or
the client is already seated at that table. -/
def Simulator.SitBusy (s : Simulator) (name : Str) (ci : ClientInfo) (t : Int) : Prop :=
  ((Simulator.tableAt s.tables t).occupant ≠ [] ∧
    (Simulator.tableAt s.tables t).occupant ≠ name) ∨
  (ci.seated = true ∧ ci.table = t)

/-- The keys of the client map: the names of the present clients. -/
def clientNames (cs : Clients) : List Str := cs.map Prod.fst

/-- Some table among `1 .. N` is free. -/
def Simulator.HasFreeTable (s : Simulator) : Prop :=
  ∃ i : Int, 1 ≤ i ∧ i ≤ s.N ∧ (Simulator.tableAt s.tables i).occupant = []

/-- The invariant of the client map and the queue: no name is the key of two
entries, every queued name is a present client, and the queue holds at most
`static_cast<size_t>(N)` names. -/
def Simulator.QueueInv (s : Simulator) : Prop :=
  (clientNames s.clients).Nodup ∧ (∀ n ∈ s.waiting, n ∈ clientNames s.clients) ∧
  s.waiting.length ≤ sizeT s.N

/-- The state of a freshly constructed simulator for an accepted header:
between 1 and 1000 tables, all free, no client, empty queue. -/
def Simulator.Initial (s : Simulator) : Prop :=
  1 ≤ s.N ∧ s.N ≤ 1000 ∧ s.tables = List.replicate (s.N + 1).toNat {} ∧
  s.clients = [] ∧ s.waiting = []

/-- The state `s` is reached from an initial state by the event loop of `run`
on some sequence of validated events. -/
def Simulator.Reachable (s : Simulator) : Prop :=
  ∃ (s0 : Simulator) (evs : List Event), s0.Initial ∧ (∀ ev ∈ evs, ev.Valid s0.N) ∧
    s0.processEvents evs = some s

/-- The state of the simulator when the event loop of `run` ends, before the
end-of-day processing. -/
def Simulator.afterEvents (s : Simulator) : Option Simulator :=
  ({ s with out := s.out ++ [s.openTime.str] }).processEvents s.events

/-- The state after the last event of a script, when the script is accepted. -/
def stateAfterEvents (input : List Str) : Option Simulator :=
  match parseInput input with
  | .error _ => none
  | .ok sim => sim.afterEvents

/-- Two tables, both taken; carl sends Wait twice. -/
def scriptWaitTwice : List Str :=
  ["2".toList, "08:00 19:00".toList, "10".toList,
   "08:00 1 ann".toList, "08:00 1 bob".toList, "08:00 1 carl".toList,
   "08:01 2 ann 1".toList, "08:02 2 bob 2".toList,
   "08:03 3 carl".toList, "08:04 3 carl".toList]

/-- One table; ann sits at it and then sends Wait. -/
def scriptSeatedWaits : List Str :=
  ["1".toList, "08:00 19:00".toList, "10".toList,
   "08:00 1 ann".toList, "08:01 2 ann 1".toList, "08:02 3 ann".toList]

/-- Two tables; ann sits at table 1 and sends Wait, then bob leaves table 2. -/
def scriptTwoTables : List Str :=
  ["2".toList, "08:00 19:00".toList, "10".toList,
   "08:00 1 ann".toList, "08:00 1 bob".toList,
   "08:01 2 ann 1".toList, "08:02 2 bob 2".toList,
   "08:03 3 ann".toList, "09:00 4 bob".toList]

/-- The script `scriptTwoTables` continued: ann sends Wait again and then sits
at table 1. -/
def scriptSitWhileQueued : List Str :=
  scriptTwoTables ++ ["09:10 3 ann".toList, "09:20 2 ann 1".toList]

/-- One table, open 08:00 to 09:00; ann arrives in time and sits at 23:50. -/
def scriptLateSit : List Str :=
  ["1".toList, "08:00 09:00".toList, "100".toList,
   "08:30 1 ann".toList, "23:50 2 ann 1".toList]

/-! ## Digits and decimal rendering -/

theorem isDigit_iff (c : Char) : isDigit c = true ↔ 48 ≤ c.toNat ∧ c.toNat ≤ 57 := by
  simp [isDigit]

theorem digitVal_lt (c : Char) (h : isDigit c = true) : digitVal c < 10 := by
  rw [isDigit_iff] at h
  unfold digitVal
  omega

theorem digitChar_digitVal (c : Char) (h : isDigit c = true) : digitChar (digitVal c) = c := by
  rw [isDigit_iff] at h
  unfold digitChar digitVal
  have : 48 + (c.toNat - 48) = c.toNat := by omega
  rw [this]
  exact Char.ofNat_toNat c

theorem digitChar_toNat (d : Nat) (h : d < 10) : (digitChar d).toNat = 48 + d := by
  interval_cases d <;> rfl

theorem isDigit_digitChar (d : Nat) (h : d < 10) : isDigit (digitChar d) = true := by
  rw [isDigit_iff, digitChar_toNat d h]
  omega

theorem digitVal_digitChar (d : Nat) (h : d < 10) : digitVal (digitChar d) = d := by
  unfold digitVal
  rw [digitChar_toNat d h]
  omega

theorem decVal_append_single (ds : Str) (c : Char) :
    decVal (ds ++ [c]) = decVal ds * 10 + digitVal c := by
  simp [decVal, List.foldl_append]

/-- The digits produced by `natDigits` are put in front of the accumulator;
they are decimal digits and their value is the number rendered. -/
theorem natDigits_spec : ∀ (fuel n : Nat) (acc : List Char), n < fuel →
    ∃ ds : List Char, natDigits fuel n acc = ds ++ acc ∧ ds ≠ [] ∧
      ds.all isDigit = true ∧ decVal ds = n := by
  intro fuel
  induction fuel with
  | zero => intro n acc h; omega
  | succ f ih =>
    intro n acc h
    have hd : n % 10 < 10 := Nat.mod_lt _ (by decide)
    by_cases h0 : n / 10 = 0
    · refine ⟨[digitChar (n % 10)], ?_, by simp, ?_, ?_⟩
      · simp [natDigits, h0]
      · simp [isDigit_digitChar _ hd]
      · simp [decVal, digitVal_digitChar _ hd]
        omega
    · have hlt : n / 10 < f := by omega
      obtain ⟨ds, h1, h2, h3, h4⟩ := ih (n / 10) (digitChar (n % 10) :: acc) hlt
      refine ⟨ds ++ [digitChar (n % 10)], ?_, by simp, ?_, ?_⟩
      · simp [natDigits, h0, h1]
      · simp only [List.all_append, h3, List.all_cons, isDigit_digitChar _ hd, List.all_nil,
          Bool.and_self]
      · rw [decVal_append_single, h4, digitVal_digitChar _ hd]
        omega

theorem showNat_spec (n : Nat) :
    showNat n ≠ [] ∧ (showNat n).all isDigit = true ∧ decVal (showNat n) = n := by
  obtain ⟨ds, h1, h2, h3, h4⟩ := natDigits_spec (n + 1) n [] (Nat.lt_succ_self n)
  have : showNat n = ds := by simp [showNat, h1]
  rw [this]
  exact ⟨h2, h3, h4⟩

theorem showInt_of_nonneg (n : Int) (h : 0 ≤ n) : showInt n = showNat n.toNat := by
  unfold showInt
  have : ¬ n < 0 := by omega
  simp only [this, if_false]
  congr 1
  omega

theorem showInt_injOn_nonneg (a b : Int) (ha : 0 ≤ a) (hb : 0 ≤ b)
    (h : showInt a = showInt b) : a = b := by
  rw [showInt_of_nonneg a ha, showInt_of_nonneg b hb] at h
  have h1 := (showNat_spec a.toNat).2.2
  have h2 := (showNat_spec b.toNat).2.2
  rw [h] at h1
  omega

theorem pad2_showInt_two_digits (n : Nat) (h : n < 100) :
    pad2 (showInt (n : Int)) = [digitChar (n / 10), digitChar (n % 10)] := by
  interval_cases n <;> rfl

/-! ## `Time` -/

/-- What `Time::parse` accepts: five characters `d d : d d` with the hour at
most 23 and the minute at most 59, mapped to `hh * 60 + mm`. -/
theorem Time.parse_eq_some (s : Str) (t : Time) (h : Time.parse s = some t) :
    ∃ h1 h2 m1 m2 : Char, s = [h1, h2, ':', m1, m2] ∧
      isDigit h1 = true ∧ isDigit h2 = true ∧ isDigit m1 = true ∧ isDigit m2 = true ∧
      digitVal h1 * 10 + digitVal h2 ≤ 23 ∧ digitVal m1 * 10 + digitVal m2 ≤ 59 ∧
      t.minutes = ((digitVal h1 * 10 + digitVal h2 : Nat) : Int) * 60 +
        ((digitVal m1 * 10 + digitVal m2 : Nat) : Int) := by
  rcases s with _ | ⟨h1, _ | ⟨h2, _ | ⟨c, _ | ⟨m1, _ | ⟨m2, _ | ⟨x, r⟩⟩⟩⟩⟩⟩ <;>
    simp only [Time.parse, reduceCtorEq] at h
  split at h
  · rename_i hc
    simp only [Bool.and_eq_true, beq_iff_eq] at hc
    obtain ⟨⟨⟨⟨d1, d2⟩, hcol⟩, d3⟩, d4⟩ := hc
    split at h
    · exact absurd h (by simp)
    · rename_i hr
      simp only [Bool.or_eq_true, decide_eq_true_eq, not_or, not_lt] at hr
      have hv1 : decVal [h1, h2] = digitVal h1 * 10 + digitVal h2 := by simp [decVal]
      have hv2 : decVal [m1, m2] = digitVal m1 * 10 + digitVal m2 := by simp [decVal]
      rw [hv1, hv2] at hr
      rw [hv1, hv2] at h
      refine ⟨h1, h2, m1, m2, by rw [hcol], d1, d2, d3, d4, ?_, ?_, ?_⟩
      · have := hr.1.1.2; omega
      · have := hr.2; omega
      · cases h; rfl
  · exact absurd h (by simp)

theorem Time.parse_range (s : Str) (t : Time) (h : Time.parse s = some t) :
    0 ≤ t.minutes ∧ t.minutes ≤ 1439 := by
  obtain ⟨h1, h2, m1, m2, -, -, -, -, -, hh, hm, ht⟩ := Time.parse_eq_some s t h
  omega

theorem Time.str_parse (s : Str) (t : Time) (h : Time.parse s = some t) : t.str = s := by
  obtain ⟨h1, h2, m1, m2, hs, d1, d2, d3, d4, hh, hm, ht⟩ := Time.parse_eq_some s t h
  have e1 := digitVal_lt h1 d1
  have e2 := digitVal_lt h2 d2
  have e3 := digitVal_lt m1 d3
  have e4 := digitVal_lt m2 d4
  have hdiv : t.minutes.tdiv 60 = ((digitVal h1 * 10 + digitVal h2 : Nat) : Int) := by
    rw [Int.tdiv_eq_ediv (by omega) (by omega)]; omega
  have hmod : t.minutes.tmod 60 = ((digitVal m1 * 10 + digitVal m2 : Nat) : Int) := by
    rw [Int.tmod_eq_emod (by omega) (by omega)]; omega
  unfold Time.str
  simp only [hdiv, hmod]
  rw [pad2_showInt_two_digits _ (by omega), pad2_showInt_two_digits _ (by omega)]
  have q1 : (digitVal h1 * 10 + digitVal h2) / 10 = digitVal h1 := by omega
  have q2 : (digitVal h1 * 10 + digitVal h2) % 10 = digitVal h2 := by omega
  have q3 : (digitVal m1 * 10 + digitVal m2) / 10 = digitVal m1 := by omega
  have q4 : (digitVal m1 * 10 + digitVal m2) % 10 = digitVal m2 := by omega
  rw [q1, q2, q3, q4, digitChar_digitVal _ d1, digitChar_digitVal _ d2,
    digitChar_digitVal _ d3, digitChar_digitVal _ d4, hs]
  rfl

theorem Time.str_length (s : Str) (t : Time) (h : Time.parse s = some t) :
    t.str.length = 5 := by
  rw [Time.str_parse s t h]
  obtain ⟨h1, h2, m1, m2, hs, -⟩ := Time.parse_eq_some s t h
  rw [hs]; rfl

/-! ## Rounding -/

/-- Where the sum `minutes + 59` fits an `int`, the machine function is the
function on mathematical integers. -/
theorem roundUpHours32_eq (d : Int) (hmin : -2147483707 ≤ d) (hmax : d ≤ 2147483588) :
    roundUpHours32 d = roundUpHours d := by
  unfold roundUpHours32 roundUpHours wrapInt32
  have h : (d + 59 + 2147483648) % 4294967296 = d + 59 + 2147483648 :=
    Int.emod_eq_of_lt (by omega) (by omega)
  rw [h]
  congr 1
  omega

/-- C7 as stated fails for the largest `int`: the sum `2147483647 + 59` wraps
around, the function returns `-35791393`, and the ceiling of `2147483647 / 60`
is `35791395`. -/
theorem roundUpHours32_wraps_at_int_max :
    roundUpHours32 2147483647 = -35791393 ∧
    ⌈((2147483647 : Int) : ℚ) / 60⌉ = 35791395 ∧
    roundUpHours32 2147483647 ≠ ⌈((2147483647 : Int) : ℚ) / 60⌉ := by
  have hc : ⌈((2147483647 : Int) : ℚ) / 60⌉ = 35791395 := by
    rw [Int.ceil_eq_iff]
    constructor <;> norm_num
  refine ⟨by decide, hc, ?_⟩
  rw [hc]
  decide

/-- C7, amended: for every duration `d` with `0 ≤ d ≤ 2147483588` (that is
`INT_MAX - 59`, which covers every duration the program forms) `roundUpHours`,
with its sum formed in 32-bit `int`, returns the ceiling of `d / 60`, the
least integer `h` with `60 * h ≥ d`, and agrees with the function on
mathematical integers; in particular 0, 1, 60 and 61 minutes are billed 0, 1,
1 and 2 hours. -/
theorem roundUpHours_is_ceil (d : Int) (hd : 0 ≤ d) (hmax : d ≤ 2147483588) :
    roundUpHours32 d = ⌈(d : ℚ) / 60⌉ ∧
    roundUpHours32 d = roundUpHours d ∧
    d ≤ 60 * roundUpHours32 d ∧
    (∀ h : Int, d ≤ 60 * h → roundUpHours32 d ≤ h) ∧
    roundUpHours32 0 = 0 ∧ roundUpHours32 1 = 1 ∧ roundUpHours32 60 = 1 ∧
    roundUpHours32 61 = 2 := by
  have h32 := roundUpHours32_eq d (by omega) hmax
  have hr : roundUpHours32 d = (d + 59) / 60 := by
    rw [h32]
    unfold roundUpHours
    exact Int.tdiv_eq_ediv (by omega) (by omega)
  refine ⟨?_, h32, ?_, ?_, by decide, by decide, by decide, by decide⟩
  · symm
    rw [Int.ceil_eq_iff, hr]
    constructor
    · rw [lt_div_iff₀ (by norm_num)]
      have : ((d + 59) / 60 - 1) * 60 < d := by omega
      exact_mod_cast this
    · rw [div_le_iff₀ (by norm_num)]
      have : d ≤ ((d + 59) / 60) * 60 := by omega
      exact_mod_cast this
  · rw [hr]; omega
  · intro h hh
    rw [hr]; omega

/-- Witness for C7 at `d = 61`: two hours are billed, the ceiling of `61 / 60`. -/
theorem roundUpHours_is_ceil_witness :
    (0 : Int) ≤ 61 ∧ (61 : Int) ≤ 2147483588 ∧
    roundUpHours32 61 = ⌈((61 : Int) : ℚ) / 60⌉ ∧ roundUpHours32 61 = 2 :=
  ⟨by decide, by decide, (roundUpHours_is_ceil 61 (by decide) (by decide)).1, by decide⟩

/-! ## Frame properties of the simulator -/

namespace Simulator

theorem Emits.refl (s : Simulator) : Emits s s [] := by
  simp [Emits]

theorem Emits.trans {a b c : Simulator} {l1 l2 : List Str}
    (h1 : Emits a b l1) (h2 : Emits b c l2) : Emits a c (l1 ++ l2) := by
  obtain ⟨a1, a2, a3, a4, a5, a6⟩ := h1
  obtain ⟨b1, b2, b3, b4, b5, b6⟩ := h2
  refine ⟨by rw [b1, a1], by rw [b2, a2], by rw [b3, a3], by rw [b4, a4], by rw [b5, a5], ?_⟩
  rw [b6, a6, List.append_assoc]

theorem error_emits (s : Simulator) (msg : Str) :
    Emits s (s.error msg) [s.currentTime.str ++ " 13 ".toList ++ msg] := by
  simp [Emits, error]

theorem handleArrival_emits (s : Simulator) (e : Event) :
    ∃ l, Emits s (s.handleArrival e) l ∧ l.length ≤ 1 := by
  unfold handleArrival
  simp only []
  split
  · exact ⟨_, error_emits _ _, by simp⟩
  · split
    · exact ⟨_, error_emits _ _, by simp⟩
    · exact ⟨[], by simp [Emits], by simp⟩

theorem handleWait_emits (s : Simulator) (e : Event) :
    ∃ l, Emits s (s.handleWait e) l ∧ l.length ≤ 1 := by
  unfold handleWait
  simp only []
  split
  · exact ⟨_, error_emits _ _, by simp⟩
  · split
    · exact ⟨[_], ⟨rfl, rfl, rfl, rfl, rfl, rfl⟩, by simp⟩
    · exact ⟨[], by simp [Emits], by simp⟩

theorem vacate_emits (s : Simulator) (name : Str) (ci : ClientInfo) :
    Emits s (s.vacate name ci) [] := by
  simp [Emits, vacate, removeFromQueue]

theorem seatNext_emits (s : Simulator) (freedTable : Int) :
    ∃ l, Emits s (s.seatNext freedTable) l ∧ l.length ≤ 1 := by
  unfold seatNext
  split
  · exact ⟨[_], ⟨rfl, rfl, rfl, rfl, rfl, rfl⟩, by simp⟩
  · exact ⟨[], Emits.refl s, by simp⟩

theorem handleLeave_emits (s : Simulator) (e : Event) :
    ∃ l, Emits s (s.handleLeave e) l ∧ l.length ≤ 1 := by
  unfold handleLeave
  simp only []
  split
  · exact ⟨_, error_emits _ _, by simp⟩
  · rename_i ci _
    obtain ⟨l, hl, hlen⟩ := seatNext_emits (s.vacate (e.params.getD 0 []) ci)
      (if ci.seated = true then ci.table else -1)
    exact ⟨[] ++ l, (vacate_emits s _ ci).trans hl, by simpa using hlen⟩

theorem handleSit_emits (s s1 : Simulator) (e : Event) (h : s.handleSit e = some s1) :
    ∃ l, Emits s s1 l ∧ l.length ≤ 1 := by
  unfold handleSit at h
  simp only [] at h
  split at h
  · exact absurd h (by simp)
  · split at h
    · cases h; exact ⟨_, error_emits _ _, by simp⟩
    · split at h
      · cases h; exact ⟨_, error_emits _ _, by simp⟩
      · split at h
        · cases h; exact ⟨_, error_emits _ _, by simp⟩
        · split at h
          · cases h; exact ⟨_, error_emits _ _, by simp⟩
          · cases h
            refine ⟨[], ?_, by simp⟩
            split <;> simp [Emits, removeFromQueue]

theorem step_emits (s s1 : Simulator) (ev : Event) (h : s.step ev = some s1) :
    ∃ l, Emits s s1 (ev.rawLine :: l) := by
  have h0 : Emits s { s with currentTime := ev.t, out := s.out ++ [ev.rawLine] }
      [ev.rawLine] := by simp [Emits]
  unfold step at h
  simp only [] at h
  split at h
  · cases h
    obtain ⟨l, hl, -⟩ := handleArrival_emits { s with currentTime := ev.t, out := s.out ++ [ev.rawLine] } ev
    exact ⟨l, h0.trans hl⟩
  · split at h
    · obtain ⟨l, hl, -⟩ := handleSit_emits _ _ _ h
      exact ⟨l, h0.trans hl⟩
    · split at h
      · cases h
        obtain ⟨l, hl, -⟩ := handleWait_emits { s with currentTime := ev.t, out := s.out ++ [ev.rawLine] } ev
        exact ⟨l, h0.trans hl⟩
      · split at h
        · cases h
          obtain ⟨l, hl, -⟩ := handleLeave_emits { s with currentTime := ev.t, out := s.out ++ [ev.rawLine] } ev
          exact ⟨l, h0.trans hl⟩
        · cases h
          exact ⟨[], h0⟩

theorem processEvents_emits : ∀ (evs : List Event) (s s1 : Simulator),
    s.processEvents evs = some s1 →
    ∃ l, Emits s s1 l ∧ (evs.map Event.rawLine).Sublist l := by
  intro evs
  induction evs with
  | nil =>
    intro s s1 h
    simp only [processEvents, Option.some.injEq] at h
    subst h
    exact ⟨[], Emits.refl s, by simp⟩
  | cons ev evs ih =>
    intro s s1 h
    simp only [processEvents] at h
    split at h
    · exact absurd h (by simp)
    · rename_i s2 hs2
      obtain ⟨l1, h1⟩ := step_emits _ _ _ hs2
      obtain ⟨l2, h2, hsub⟩ := ih _ _ h
      refine ⟨(ev.rawLine :: l1) ++ l2, h1.trans h2, ?_⟩
      simp only [List.map_cons, List.cons_append]
      exact List.Sublist.cons₂ _ (hsub.trans (List.sublist_append_right l1 l2))

theorem closeClient_emits (s : Simulator) (name : Str) :
    Emits s (s.closeClient name) [s.closeTime.str ++ " 11 ".toList ++ name] := by
  unfold closeClient
  simp only []
  split <;> simp [Emits]

theorem foldl_closeClient_emits : ∀ (names : List Str) (s : Simulator),
    Emits s (names.foldl closeClient s)
      (names.map (fun n => s.closeTime.str ++ " 11 ".toList ++ n)) := by
  intro names
  induction names with
  | nil => intro s; exact Emits.refl s
  | cons n ns ih =>
    intro s
    have h1 := closeClient_emits s n
    have h2 := ih (s.closeClient n)
    rw [h1.2.2.1] at h2
    exact h1.trans h2

theorem closeDay_emits (s : Simulator) :
    Emits s s.closeDay
      ((sortNames (s.clients.map Prod.fst)).map
        (fun n => s.closeTime.str ++ " 11 ".toList ++ n)) := by
  unfold closeDay
  simp only []
  split
  · have h := foldl_closeClient_emits (sortNames (s.clients.map Prod.fst))
      { s with currentTime := s.closeTime }
    exact (show Emits s { s with currentTime := s.closeTime } [] by simp [Emits]).trans h
  · rename_i hc
    have : s.clients = [] := by simpa using hc
    simp [this, sortNames, Emits]

theorem report_length (s : Simulator) : s.report.length = s.N.toNat := by
  simp [report]

/-- The shape of what `run` writes: the opening time, a body that contains the
echo of every event in order, the closing time, and one report line per table. -/
theorem run_out (s s1 : Simulator) (h : s.run = some s1) :
    ∃ body : List Str, s1.out = s.out ++ s.openTime.str :: body ++ s.closeTime.str :: s1.report ∧
      (s.events.map Event.rawLine).Sublist body ∧ s1.N = s.N ∧
      s1.report.length = s.N.toNat := by
  unfold run at h
  simp only [] at h
  split at h
  · exact absurd h (by simp)
  · rename_i s2 hs2
    obtain ⟨l1, hl1, hsub⟩ := processEvents_emits _ _ _ hs2
    obtain ⟨l2, hl2⟩ : ∃ l2, Emits s2 s2.closeDay l2 := ⟨_, closeDay_emits s2⟩
    have h12 := hl1.trans hl2
    obtain ⟨a1, a2, a3, a4, a5, a6⟩ := h12
    cases h
    simp only [] at a1 a2 a3 a4 a5 a6
    refine ⟨l1 ++ l2, ?_, hsub.trans (List.sublist_append_left l1 l2), a1, ?_⟩
    · simp only [a6, a3, report, tableAt, reportLine, List.append_assoc, List.cons_append,
        List.nil_append, List.singleton_append]
    · simp [report, a1]

end Simulator

/-! ## The validator -/

theorem isSpace_of_isDigit (c : Char) (h : isDigit c = true) : isSpace c = false := by
  rw [isDigit_iff] at h
  simp only [isSpace, Bool.or_eq_false_iff, decide_eq_false_iff_not, Bool.and_eq_false_imp,
    decide_eq_true_eq]
  omega

theorem takeWhile_all {p : Char → Bool} : ∀ (l : List Char), l.all p = true →
    l.takeWhile p = l ∧ l.dropWhile p = [] := by
  intro l
  induction l with
  | nil => intro _; simp
  | cons c cs ih =>
    intro h
    simp only [List.all_cons, Bool.and_eq_true] at h
    simp [List.takeWhile, List.dropWhile, h.1, ih h.2]

/-- `std::stoi` reads back what `std::to_string` wrote. -/
theorem stoi_showInt (n : Int) (h0 : 0 ≤ n) (h1 : n ≤ 2147483647) :
    stoi (showInt n) = some n := by
  rw [showInt_of_nonneg n h0]
  obtain ⟨hne, hall, hval⟩ := showNat_spec n.toNat
  rcases hs : showNat n.toNat with _ | ⟨c, cs⟩
  · exact absurd hs hne
  · rw [hs] at hall hval
    have hc : isDigit c = true := by
      simp only [List.all_cons, Bool.and_eq_true] at hall; exact hall.1
    have hsp := isSpace_of_isDigit c hc
    have hminus : c ≠ '-' := by
      intro hh; rw [hh] at hc; exact absurd hc (by decide)
    have hplus : c ≠ '+' := by
      intro hh; rw [hh] at hc; exact absurd hc (by decide)
    obtain ⟨ht, -⟩ := takeWhile_all (c :: cs) hall
    have hv : (decVal (c :: cs) : Int) = n := by rw [hval]; omega
    unfold stoi
    have hd : List.dropWhile isSpace (c :: cs) = c :: cs := by simp [List.dropWhile, hsp]
    have hb1 : (some c == some '-') = false := by simp [hminus]
    have hb2 : (some c == some '+') = false := by simp [hplus]
    have hr : (decide (n < -2147483648) || decide (n > 2147483647)) = false := by
      simp only [Bool.or_eq_false_iff, decide_eq_false_iff_not]
      omega
    simp only [hd, List.head?_cons, hb1, hb2, Bool.or_false, Bool.false_eq_true, if_false, ht,
      hv, List.isEmpty_cons, hr]

theorem IStream.readInt_range (s : IStream) :
    -2147483648 ≤ (s.readInt).2 ∧ (s.readInt).2 ≤ 2147483647 := by
  unfold IStream.readInt
  split
  · simp
  · simp only []
    split_ifs <;> dsimp only <;> omega

theorem parseNameArgs_length (iss : IStream) (ps : List Str) (h : parseNameArgs iss = some ps) :
    ps.length = 1 := by
  unfold parseNameArgs at h
  simp only [] at h
  split at h
  · exact absurd h (by simp)
  · cases h; rfl

theorem parseSitArgs_stoi (N : Int) (iss : IStream) (ps : List Str)
    (h : parseSitArgs N iss = some ps) : (stoi (ps.getD 1 [])).isSome := by
  unfold parseSitArgs at h
  simp only [] at h
  split at h
  · exact absurd h (by simp)
  · rename_i hc
    cases h
    simp only [Bool.or_eq_true, decide_eq_true_eq, not_or, not_le] at hc
    have hr := IStream.readInt_range (iss.readString).1
    simp only [List.getD_cons_succ, List.getD_cons_zero]
    rw [stoi_showInt _ (by omega) hr.2]
    rfl

/-- What an accepted event line yields. -/
theorem parseEventLine_some (N : Int) (prev : Time) (k : Int) (line : Str) (ev : Event)
    (h : parseEventLine N prev k line = some ev) :
    ev.rawLine = line ∧ ev.lineNo = k ∧
    Time.parse (IStream.readString { buf := line }).2 = some ev.t ∧
    prev.minutes ≤ ev.t.minutes ∧ ev.sitOk := by
  unfold parseEventLine at h
  simp only [] at h
  split at h
  · exact absurd h (by simp)
  · split at h
    · exact absurd h (by simp)
    · rename_i evTime hparse
      split at h
      · exact absurd h (by simp)
      · rename_i hle
        split at h
        · exact absurd h (by simp)
        · rename_i params hargs
          cases h
          refine ⟨rfl, rfl, hparse, not_lt.mp hle, ?_⟩
          intro hid
          simp only [] at hid
          simp only [hid] at hargs
          exact parseSitArgs_stoi _ _ _ hargs

/-- Acceptance of an event line does not depend on the line number, which is
only recorded in the event. -/
theorem parseEventLine_lineNo (N : Int) (prev : Time) (k k2 : Int) (line : Str) :
    parseEventLine N prev k line =
      (parseEventLine N prev k2 line).map (fun e => { e with lineNo := k }) := by
  unfold parseEventLine
  simp only []
  split
  · rfl
  · split
    · rfl
    · split
      · rfl
      · split <;> rfl

/-- Acceptance of an event line depends on the previous time only through the
comparison with the line's own time. -/
theorem parseEventLine_prev (N : Int) (prev prev2 : Time) (k : Int) (line : Str) (ev : Event)
    (h : parseEventLine N prev k line = some ev) (h2 : prev2.minutes ≤ ev.t.minutes) :
    parseEventLine N prev2 k line = some ev := by
  unfold parseEventLine at h ⊢
  simp only [] at h ⊢
  split at h
  · exact absurd h (by simp)
  · rename_i hok
    simp only [hok]
    split at h
    · exact absurd h (by simp)
    · rename_i evTime hparse
      split at h
      · exact absurd h (by simp)
      · split at h
        · exact absurd h (by simp)
        · rename_i params hargs
          cases h
          simp only [] at h2
          have : ¬ evTime.minutes < prev2.minutes := by omega
          simp only [Bool.false_eq_true, if_false, this, hargs]

theorem parseEventLine_none_lineNo (N : Int) (prev : Time) (k k2 : Int) (line : Str)
    (h : parseEventLine N prev k line = none) : parseEventLine N prev k2 line = none := by
  rw [parseEventLine_lineNo N prev k k2 line] at h
  simpa using h

theorem eventLines_cons_empty (line : Str) (rest : List Str) (h : line.isEmpty = true) :
    eventLines (line :: rest) = eventLines rest := by
  simp [eventLines, h]

theorem eventLines_cons_nonempty (line : Str) (rest : List Str) (h : ¬ line.isEmpty = true) :
    eventLines (line :: rest) = line :: eventLines rest := by
  simp [eventLines, h]

/-- When the event loop of `main` accepts all lines, the events added are the
non-empty lines in file order, with non-decreasing times. -/
theorem readEvents_ok (N : Int) : ∀ (lines : List Str) (lineNo : Int) (prev : Time)
    (sim sim1 : Simulator), readEvents N lines lineNo prev sim = .ok sim1 →
    ∃ evs : List Event, sim1 = { sim with events := sim.events ++ evs } ∧
      evs.map Event.rawLine = eventLines lines ∧ (∀ ev ∈ evs, ev.sitOk) ∧
      List.Chain (fun a b => a ≤ b) prev.minutes (evs.map (fun e => e.t.minutes)) := by
  intro lines
  induction lines with
  | nil =>
    intro lineNo prev sim sim1 h
    simp only [readEvents, Except.ok.injEq] at h
    subst h
    exact ⟨[], by simp, by simp [eventLines], by simp, List.Chain.nil⟩
  | cons line rest ih =>
    intro lineNo prev sim sim1 h
    by_cases he : line.isEmpty = true
    · simp only [readEvents, he, if_true] at h
      obtain ⟨evs, h1, h2, h3, h4⟩ := ih _ _ _ _ h
      exact ⟨evs, h1, by rw [eventLines_cons_empty _ _ he]; exact h2, h3, h4⟩
    · have he2 : line.isEmpty = false := by simpa using he
      simp only [readEvents, he2, Bool.false_eq_true, if_false] at h
      split at h
      · exact absurd h (by simp)
      · rename_i ev hev
        obtain ⟨hraw, -, -, hle, hsit⟩ := parseEventLine_some _ _ _ _ _ hev
        obtain ⟨evs, h1, h2, h3, h4⟩ := ih _ _ _ _ h
        refine ⟨ev :: evs, ?_, ?_, ?_, ?_⟩
        · rw [h1]; simp [Simulator.addInputEvent]
        · rw [eventLines_cons_nonempty _ _ he, List.map_cons, h2, hraw]
        · intro e he2
          rcases List.mem_cons.mp he2 with rfl | hm
          · exact hsit
          · exact h3 e hm
        · exact List.Chain.cons hle h4

/-- When the event loop of `main` prints a line number, the non-empty lines
before the offending one are accepted in sequence, the offending one is
rejected after them, and the number printed is its position among the
non-empty lines added to the starting count. -/
theorem readEvents_error (N : Int) : ∀ (lines : List Str) (lineNo : Int) (prev : Time)
    (sim : Simulator) (n : Int), readEvents N lines lineNo prev sim = .error n →
    ∃ (pre : List Str) (bad : Str) (post : List Str) (tl : Time),
      eventLines lines = pre ++ bad :: post ∧ lastAccepted N prev pre = some tl ∧
      parseEventLine N tl n bad = none ∧ n = lineNo + ((pre.length : Int) + 1) := by
  intro lines
  induction lines with
  | nil =>
    intro lineNo prev sim n h
    simp [readEvents] at h
  | cons line rest ih =>
    intro lineNo prev sim n h
    by_cases he : line.isEmpty = true
    · simp only [readEvents, he, if_true] at h
      obtain ⟨pre, bad, post, tl, h1, h2, h3, h4⟩ := ih _ _ _ _ h
      exact ⟨pre, bad, post, tl, by rw [eventLines_cons_empty _ _ he]; exact h1, h2, h3, h4⟩
    · have he2 : line.isEmpty = false := by simpa using he
      simp only [readEvents, he2, Bool.false_eq_true, if_false] at h
      split at h
      · rename_i hev
        simp only [Except.error.injEq] at h
        subst h
        refine ⟨[], line, eventLines rest, prev, ?_, rfl, hev, by simp⟩
        rw [eventLines_cons_nonempty _ _ he]; rfl
      · rename_i ev hev
        obtain ⟨pre, bad, post, tl, h1, h2, h3, h4⟩ := ih _ _ _ _ h
        have h0 := parseEventLine_lineNo N prev 0 (lineNo + 1) line
        rw [hev] at h0
        refine ⟨line :: pre, bad, post, tl, ?_, ?_, h3, ?_⟩
        · rw [eventLines_cons_nonempty _ _ he, h1]; rfl
        · simp only [lastAccepted, h0, Option.map_some']
          exact h2
        · rw [h4]; simp only [List.length_cons]; push_cast; ring

/-! ## `run` returns on validated events -/

namespace Simulator

theorem handleSit_isSome (s : Simulator) (e : Event) (h : (stoi (e.params.getD 1 [])).isSome) :
    (s.handleSit e).isSome := by
  obtain ⟨t, ht⟩ := Option.isSome_iff_exists.mp h
  unfold handleSit
  simp only [ht]
  split
  · rfl
  · split
    · rfl
    · split
      · rfl
      · split <;> rfl

theorem step_isSome (s : Simulator) (ev : Event) (h : ev.sitOk) : (s.step ev).isSome := by
  unfold step
  simp only []
  split
  · rfl
  · split
    · rename_i h2
      exact handleSit_isSome _ _ (h h2)
    · split
      · rfl
      · split <;> rfl

theorem processEvents_isSome : ∀ (evs : List Event), (∀ ev ∈ evs, ev.sitOk) →
    ∀ s : Simulator, (s.processEvents evs).isSome := by
  intro evs
  induction evs with
  | nil => intro _ s; rfl
  | cons ev evs ih =>
    intro h s
    obtain ⟨s1, hs1⟩ := Option.isSome_iff_exists.mp (step_isSome s ev (h ev (by simp)))
    simp only [processEvents, hs1]
    exact ih (fun e he => h e (by simp [he])) s1

theorem run_isSome (s : Simulator) (h : ∀ ev ∈ s.events, ev.sitOk) : (s.run).isSome := by
  obtain ⟨s1, hs1⟩ := Option.isSome_iff_exists.mp
    (processEvents_isSome s.events h { s with out := s.out ++ [s.openTime.str] })
  unfold run
  simp only [hs1]
  rfl

end Simulator

/-! ## The header -/

/-- Line 1 is accepted exactly when it is a non-empty string of digits whose
value lies in `1 .. 1000`; that value is the table count. -/
theorem readTableCount_eq_some_iff (l : Str) (N : Int) :
    readTableCount l = some N ↔
      (l ≠ [] ∧ (∀ c ∈ l, isDigit c = true) ∧ 1 ≤ decVal l ∧ decVal l ≤ 1000 ∧
        N = (decVal l : Int)) := by
  unfold readTableCount parsePositiveInt stoll
  by_cases he : l = []
  · subst he; simp
  · have he2 : l.isEmpty = false := by simpa using he
    by_cases hd : l.all isDigit = true
    · have hd2 : ∀ c ∈ l, isDigit c = true := by simpa using hd
      simp only [he2, hd, Bool.not_true, Bool.or_self, Bool.false_eq_true, if_false]
      by_cases hbig : decVal l > 9223372036854775807
      · simp only [hbig, if_true]
        constructor
        · intro h; exact absurd h (by simp)
        · rintro ⟨-, -, -, h4, -⟩; omega
      · simp only [hbig, if_false]
        by_cases hpos : (decVal l : Int) > 0
        · simp only [hpos, if_true]
          by_cases hk : (decVal l : Int) > 1000
          · simp only [hk, if_true]
            constructor
            · intro h; exact absurd h (by simp)
            · rintro ⟨-, -, -, h4, -⟩; omega
          · simp only [hk, if_false, Option.some.injEq]
            constructor
            · intro h; exact ⟨he, hd2, by omega, by omega, h.symm⟩
            · rintro ⟨-, -, -, -, h5⟩; exact h5.symm
        · simp only [hpos, if_false]
          constructor
          · intro h; exact absurd h (by simp)
          · rintro ⟨-, -, h3, -, -⟩; omega
    · have hd2 : ¬ ∀ c ∈ l, isDigit c = true := by simpa using hd
      have hd3 : l.all isDigit = false := by simpa using hd
      simp only [he2, hd3, Bool.not_false, Bool.or_true, if_true]
      constructor
      · intro h; exact absurd h (by simp)
      · rintro ⟨-, h2, -⟩; exact absurd h2 hd2

theorem parseHeader_ok (input : List Str) (h : Header) (rest : List Str)
    (hp : parseHeader input = .ok (h, rest)) :
    ∃ l1 l2 l3 : Str, input = l1 :: l2 :: l3 :: rest ∧
      readTableCount l1 = some h.nTables ∧
      readHours l2 = some (h.openTime, h.closeTime) ∧ readPrice l3 = some h.price := by
  unfold parseHeader at hp
  rcases input with _ | ⟨l1, _ | ⟨l2, _ | ⟨l3, r⟩⟩⟩
  · simp at hp
  · simp only [] at hp
    split at hp <;> simp at hp
  · simp only [] at hp
    split at hp
    · simp at hp
    · split at hp <;> simp at hp
  · simp only [] at hp
    split at hp
    · simp at hp
    · rename_i N h1
      split at hp
      · simp at hp
      · rename_i o c h2
        split at hp
        · simp at hp
        · rename_i pr h3
          simp only [Except.ok.injEq, Prod.mk.injEq] at hp
          obtain ⟨hh, hr⟩ := hp
          subst hh hr
          exact ⟨l1, l2, l3, rfl, h1, h2, h3⟩

theorem parseHeader_error (input : List Str) (n : Int) (hp : parseHeader input = .error n) :
    (n = 1 ∧ input.head?.bind readTableCount = none) ∨
    (n = 2 ∧ (input.head?.bind readTableCount).isSome ∧ input[1]?.bind readHours = none) ∨
    (n = 3 ∧ (input.head?.bind readTableCount).isSome ∧ (input[1]?.bind readHours).isSome ∧
      input[2]?.bind readPrice = none) := by
  unfold parseHeader at hp
  rcases input with _ | ⟨l1, r1⟩
  · simp only [Except.error.injEq] at hp
    left; exact ⟨hp.symm, rfl⟩
  · simp only [] at hp
    split at hp
    · rename_i h1
      simp only [Except.error.injEq] at hp
      left; exact ⟨hp.symm, by simpa using h1⟩
    · rename_i N h1
      rcases r1 with _ | ⟨l2, r2⟩
      · simp only [Except.error.injEq] at hp
        right; left; exact ⟨hp.symm, by simp [h1], by simp⟩
      · simp only [] at hp
        split at hp
        · rename_i h2
          simp only [Except.error.injEq] at hp
          right; left; exact ⟨hp.symm, by simp [h1], by simpa using h2⟩
        · rename_i o c h2
          rcases r2 with _ | ⟨l3, r3⟩
          · simp only [Except.error.injEq] at hp
            right; right; exact ⟨hp.symm, by simp [h1], by simp [h2], by simp⟩
          · simp only [] at hp
            split at hp
            · rename_i h3
              simp only [Except.error.injEq] at hp
              right; right; exact ⟨hp.symm, by simp [h1], by simp [h2], by simpa using h3⟩
            · simp at hp

/-- What `main` hands to `run` for an accepted script. -/
theorem parseInput_ok (input : List Str) (sim : Simulator) (hp : parseInput input = .ok sim) :
    ∃ (l1 l2 l3 : Str) (rest : List Str) (N price : Int) (o c : Time) (evs : List Event),
      input = l1 :: l2 :: l3 :: rest ∧ readTableCount l1 = some N ∧
      readHours l2 = some (o, c) ∧ readPrice l3 = some price ∧
      sim = { Simulator.init N o c price with events := evs } ∧
      evs.map Event.rawLine = eventLines rest ∧ (∀ ev ∈ evs, ev.sitOk) ∧
      List.Chain (fun a b => a ≤ b) 0 (evs.map (fun e => e.t.minutes)) := by
  unfold parseInput at hp
  split at hp
  · simp at hp
  · rename_i h rest hh
    obtain ⟨l1, l2, l3, hin, h1, h2, h3⟩ := parseHeader_ok _ _ _ hh
    obtain ⟨evs, e1, e2, e3, e4⟩ := readEvents_ok _ _ _ _ _ _ hp
    refine ⟨l1, l2, l3, rest, h.nTables, h.price, h.openTime, h.closeTime, evs, hin, h1, h2, h3,
      ?_, e2, e3, e4⟩
    rw [e1]
    simp [Simulator.init]

theorem parseInput_error (input : List Str) (n : Int) (hp : parseInput input = .error n) :
    FirstOffending input n := by
  unfold parseInput at hp
  split at hp
  · rename_i m hm
    simp only [Except.error.injEq] at hp
    subst hp
    rcases parseHeader_error _ _ hm with h | h | h
    · exact Or.inl h
    · exact Or.inr (Or.inl h)
    · exact Or.inr (Or.inr (Or.inl h))
  · rename_i h rest hh
    obtain ⟨l1, l2, l3, hin, h1, h2, h3⟩ := parseHeader_ok _ _ _ hh
    obtain ⟨pre, bad, post, tl, e1, e2, e3, e4⟩ := readEvents_error _ _ _ _ _ _ hp
    refine Or.inr (Or.inr (Or.inr ⟨h.nTables, pre, bad, post, tl, ?_, ?_, ?_, ?_, e2, e3, e4⟩))
    · simp [hin, h1]
    · simp [hin, h2]
    · simp [hin, h3]
    · simp [hin, e1]

theorem firstOffending_pos (input : List Str) (n : Int) (h : FirstOffending input n) : 1 ≤ n := by
  rcases h with h | h | h | ⟨_, pre, _, _, _, _, _, _, _, _, _, h⟩ <;> omega

/-! ## The output of `main` -/

theorem readTableCount_pos (l : Str) (N : Int) (h : readTableCount l = some N) :
    1 ≤ N ∧ N ≤ 1000 := by
  obtain ⟨-, -, h1, h2, h3⟩ := (readTableCount_eq_some_iff l N).mp h
  omega

theorem readHours_some (l : Str) (o c : Time) (h : readHours l = some (o, c)) :
    Time.parse (firstToken l) = some o ∧ Time.parse (secondToken l) = some c ∧
      o.minutes < c.minutes := by
  unfold readHours at h
  simp only [] at h
  split at h
  · exact absurd h (by simp)
  · split at h
    · rename_i o2 c2 h1 h2
      split at h
      · exact absurd h (by simp)
      · rename_i hlt
        simp only [Option.some.injEq, Prod.mk.injEq] at h
        obtain ⟨rfl, rfl⟩ := h
        exact ⟨h1, h2, by omega⟩
    · exact absurd h (by simp)

/-- The output of `main` when validation fails. -/
theorem main_of_error (input : List Str) (n : Int) (hp : parseInput input = .error n) :
    main input = [showInt n] ∧ 1 ≤ n ∧ FirstOffending input n := by
  have hf := parseInput_error input n hp
  exact ⟨by simp [main, hp], firstOffending_pos input n hf, hf⟩

/-- The output of `main` when validation succeeds. -/
theorem main_of_ok (input : List Str) (sim : Simulator) (hp : parseInput input = .ok sim) :
    ∃ (s : Simulator) (body : List Str), sim.run = some s ∧
      main input = sim.openTime.str :: body ++ sim.closeTime.str :: s.report ∧
      sim.events.map Event.rawLine = eventLines (input.drop 3) ∧
      (sim.events.map Event.rawLine).Sublist body ∧
      s.report.length = sim.N.toNat ∧ 1 ≤ sim.N := by
  obtain ⟨l1, l2, l3, rest, N, price, o, c, evs, hin, h1, h2, h3, hsim, e2, e3, e4⟩ :=
    parseInput_ok input sim hp
  have hev : sim.events = evs := by rw [hsim]
  have hout : sim.out = [] := by rw [hsim]; rfl
  have hN : sim.N = N := by rw [hsim]; rfl
  obtain ⟨s, hs⟩ := Option.isSome_iff_exists.mp
    (Simulator.run_isSome sim (by rw [hev]; exact e3))
  obtain ⟨body, hb1, hb2, hb3, hb4⟩ := Simulator.run_out sim s hs
  have hNpos := (readTableCount_pos l1 N h1).1
  refine ⟨s, body, hs, ?_, ?_, hb2, hb4, by omega⟩
  · simp [main, hp, hs, hb1, hout]
  · rw [hev, e2, hin]; rfl

/-- A transcript is never a single line holding a number: it has at least
three lines. -/
theorem main_of_ok_length (input : List Str) (sim : Simulator)
    (hp : parseInput input = .ok sim) : 3 ≤ (main input).length := by
  obtain ⟨s, body, -, hm, -, -, hlen, hN⟩ := main_of_ok input sim hp
  rw [hm]
  simp only [List.length_cons, List.length_append, hlen]
  omega

/-- C1: the output of `main` is either the single line holding the number of
the first offending line (header lines are 1, 2, 3; the k-th non-empty line of
the event section is `3 + k`, empty lines are not counted), or a complete
transcript (opening time, a body containing the echo of every non-empty event
line in order, closing time, one report line per table), which is never a
single line holding a number. -/
theorem main_output_is_line_number_or_transcript (input : List Str) :
    (∃ n : Int, parseInput input = .error n ∧ main input = [showInt n] ∧ 1 ≤ n ∧
      FirstOffending input n) ∨
    (∃ (sim s : Simulator) (body : List Str), parseInput input = .ok sim ∧ sim.run = some s ∧
      main input = sim.openTime.str :: body ++ sim.closeTime.str :: s.report ∧
      sim.events.map Event.rawLine = eventLines (input.drop 3) ∧
      (sim.events.map Event.rawLine).Sublist body ∧
      s.report.length = sim.N.toNat ∧ 1 ≤ sim.N ∧ ∀ k : Int, main input ≠ [showInt k]) := by
  rcases hp : parseInput input with n | sim
  · left
    obtain ⟨h1, h2, h3⟩ := main_of_error input n hp
    exact ⟨n, rfl, h1, h2, h3⟩
  · right
    obtain ⟨s, body, hs, hm, hraw, hsub, hlen, hN⟩ := main_of_ok input sim hp
    refine ⟨sim, s, body, rfl, hs, hm, hraw, hsub, hlen, hN, ?_⟩
    intro k hk
    have h3 := main_of_ok_length input sim hp
    rw [hk] at h3
    simp at h3

theorem firstOffending_one (line1 : Str) (rest : List Str)
    (h : FirstOffending (line1 :: rest) 1) : readTableCount line1 = none := by
  rcases h with h | h | h | ⟨_, pre, _, _, _, _, _, _, _, _, _, h⟩
  · simpa using h.2
  · omega
  · omega
  · omega

theorem main_eq_one_iff (line1 : Str) (rest : List Str) :
    main (line1 :: rest) = ["1".toList] ↔ readTableCount line1 = none := by
  constructor
  · intro h
    rcases hp : parseInput (line1 :: rest) with n | sim
    · obtain ⟨hout, hn, hf⟩ := main_of_error _ n hp
      rw [hout] at h
      have h1 : showInt n = showInt 1 := by
        have := List.head_eq_of_cons_eq h
        rw [this]; rfl
      have := showInt_injOn_nonneg n 1 (by omega) (by omega) h1
      subst this
      exact firstOffending_one line1 rest hf
    · have h3 := main_of_ok_length _ sim hp
      rw [h] at h3
      simp at h3
  · intro h
    simp [main, parseInput, parseHeader, h]
    rfl

/-- C2: the first line is accepted as the table count exactly when it is a
non-empty string of decimal digits with a value in `1 .. 1000` (the count is
that value); for every other first line the whole output is the line `1`, as
for `0`, the empty line, `1001` and a digit string too large for 64 bits. -/
theorem first_line_accepted_iff_valid_count (line1 : Str) (rest : List Str) :
    ((∃ N, readTableCount line1 = some N) ↔ ValidCount line1) ∧
    (∀ N, readTableCount line1 = some N → N = (decVal line1 : Int)) ∧
    (main (line1 :: rest) = ["1".toList] ↔ ¬ ValidCount line1) ∧
    main [] = ["1".toList] ∧
    main ("0".toList :: rest) = ["1".toList] ∧
    main ("".toList :: rest) = ["1".toList] ∧
    main ("1001".toList :: rest) = ["1".toList] ∧
    main ("99999999999999999999".toList :: rest) = ["1".toList] := by
  have key : (∃ N, readTableCount line1 = some N) ↔ ValidCount line1 := by
    constructor
    · rintro ⟨N, hN⟩
      obtain ⟨a, b, c, d, -⟩ := (readTableCount_eq_some_iff line1 N).mp hN
      exact ⟨a, b, c, d⟩
    · rintro ⟨a, b, c, d⟩
      exact ⟨_, (readTableCount_eq_some_iff line1 _).mpr ⟨a, b, c, d, rfl⟩⟩
  refine ⟨key, ?_, ?_, by decide, ?_, ?_, ?_, ?_⟩
  · intro N hN
    exact ((readTableCount_eq_some_iff line1 N).mp hN).2.2.2.2
  · rw [main_eq_one_iff, ← key]
    cases readTableCount line1 <;> simp
  · exact (main_eq_one_iff _ rest).mpr (by decide)
  · exact (main_eq_one_iff _ rest).mpr (by decide)
  · exact (main_eq_one_iff _ rest).mpr (by decide)
  · exact (main_eq_one_iff _ rest).mpr (by decide)

/-- C3 (the code departs from the claim): a second line with a third token is
not rejected. For the script `1`, `08:00 09:00 junk`, `100` the line is
accepted with hours 08:00 to 09:00 and the output is the transcript of an
empty day, not the line `2`. -/
theorem hours_line_trailing_token_accepted :
    splitWs "08:00 09:00 junk".toList = ["08:00".toList, "09:00".toList, "junk".toList] ∧
    readHours "08:00 09:00 junk".toList = some (⟨480⟩, ⟨540⟩) ∧
    main ["1".toList, "08:00 09:00 junk".toList, "100".toList] =
      ["08:00".toList, "09:00".toList, "1 0 00:00".toList] := by
  decide

/-- C4 (the code departs from the claim): the line `08:10 1ann` has two
white-space separated tokens, yet `iss >> id` stops after the digit and
`iss >> name` reads `ann`, so the line is accepted as the arrival of `ann`; a
signed id such as `+1` is accepted as well. -/
theorem event_line_glued_id_accepted :
    splitWs "08:10 1ann".toList = ["08:10".toList, "1ann".toList] ∧
    parseEventLine 1 ⟨0⟩ 4 "08:10 1ann".toList =
      some { t := ⟨490⟩, id := 1, params := ["ann".toList], rawLine := "08:10 1ann".toList,
             lineNo := 4 } ∧
    main ["1".toList, "08:00 09:00".toList, "100".toList, "08:10 1ann".toList] =
      ["08:00".toList, "08:10 1ann".toList, "09:00 11 ann".toList, "09:00".toList,
       "1 0 00:00".toList] ∧
    (parseEventLine 1 ⟨0⟩ 4 "08:10 +1 ann".toList).isSome = true := by
  decide

theorem parseEventLine_earlier (N : Int) (prev : Time) (k : Int) (line : Str) (t : Time)
    (ht : Time.parse (firstToken line) = some t) (hlt : t.minutes < prev.minutes) :
    parseEventLine N prev k line = none := by
  unfold firstToken at ht
  unfold parseEventLine
  simp only [ht, hlt, if_true]
  split <;> rfl

/-- C5: an event line whose timestamp is earlier than the previous event's is
rejected and its line number is printed, while a line that is accepted is also
accepted when the previous event has its very timestamp; hence the events of an
accepted script are the non-empty event lines in file order, sorted by time. -/
theorem event_times_non_decreasing :
    (∀ (N : Int) (prev : Time) (k : Int) (line : Str) (t : Time),
      Time.parse (firstToken line) = some t → t.minutes < prev.minutes →
      parseEventLine N prev k line = none ∧
      ∀ (rest : List Str) (sim : Simulator), line ≠ [] →
        readEvents N (line :: rest) (k - 1) prev sim = .error k) ∧
    (∀ (N : Int) (prev : Time) (k : Int) (line : Str) (ev : Event),
      parseEventLine N prev k line = some ev →
      Time.parse (firstToken line) = some ev.t ∧ parseEventLine N ev.t k line = some ev) ∧
    (∀ (input : List Str) (sim : Simulator), parseInput input = .ok sim →
      List.Sorted (fun a b => a ≤ b) (sim.events.map (fun e => e.t.minutes)) ∧
      sim.events.map Event.rawLine = eventLines (input.drop 3)) := by
  refine ⟨?_, ?_, ?_⟩
  · intro N prev k line t ht hlt
    have hnone := parseEventLine_earlier N prev k line t ht hlt
    refine ⟨hnone, ?_⟩
    intro rest sim hne
    have he : line.isEmpty = false := by simpa using hne
    simp only [readEvents, he, Bool.false_eq_true, if_false, Int.sub_add_cancel, hnone]
  · intro N prev k line ev h
    exact ⟨(parseEventLine_some N prev k line ev h).2.2.1,
      parseEventLine_prev N prev ev.t k line ev h (le_refl _)⟩
  · intro input sim hp
    obtain ⟨l1, l2, l3, rest, N, price, o, c, evs, hin, h1, h2, h3, hsim, e2, e3, e4⟩ :=
      parseInput_ok input sim hp
    have hev : sim.events = evs := by rw [hsim]
    rw [hev]
    refine ⟨?_, by rw [e2, hin]; rfl⟩
    have := (List.chain_iff_pairwise (R := fun a b : Int => a ≤ b)).mp e4
    exact this.of_cons

/-- Witness for C5: after an event at 08:10 the line `08:09 1 bob` is rejected
at its line, the line `08:10 1 bob` is accepted, and an accepted script with
two events at 08:10 hands both to the simulator in file order. -/
theorem event_times_non_decreasing_witness :
    parseEventLine 1 ⟨490⟩ 5 "08:09 1 bob".toList = none ∧
    parseEventLine 1 ⟨490⟩ 5 "08:10 1 bob".toList =
      some { t := ⟨490⟩, id := 1, params := ["bob".toList], rawLine := "08:10 1 bob".toList,
             lineNo := 5 } ∧
    List.Sorted (fun a b => a ≤ b)
      ((Simulator.init 1 ⟨480⟩ ⟨540⟩ 100).addInputEvent
          { t := ⟨490⟩, id := 1, params := ["ann".toList], rawLine := "08:10 1 ann".toList,
            lineNo := 4 } |>.addInputEvent
          { t := ⟨490⟩, id := 1, params := ["bob".toList], rawLine := "08:10 1 bob".toList,
            lineNo := 5 } |>.events.map (fun e => e.t.minutes)) :=
  ⟨(event_times_non_decreasing.1 1 ⟨490⟩ 5 "08:09 1 bob".toList ⟨489⟩ (by decide)
      (by decide)).1,
   (event_times_non_decreasing.2.1 1 ⟨0⟩ 5 "08:10 1 bob".toList
      { t := ⟨490⟩, id := 1, params := ["bob".toList], rawLine := "08:10 1 bob".toList,
        lineNo := 5 } (by decide)).2,
   (event_times_non_decreasing.2.2
      ["1".toList, "08:00 09:00".toList, "100".toList, "08:10 1 ann".toList, "".toList,
       "08:10 1 bob".toList] _ (by decide)).1⟩

/-- C6: `Time::str` gives back every string that `Time::parse` accepts, and
`Time::parse` maps `h1 h2 : m1 m2` to `hh * 60 + mm`, a value in `0 .. 1439`;
hence for every accepted input the first output line is the opening-time token
of header line 2 and the line just before the table report (one line per
table) is the closing-time token. -/
theorem open_close_lines_are_header_tokens :
    (∀ (s : Str) (t : Time), Time.parse s = some t →
      t.str = s ∧ 0 ≤ t.minutes ∧ t.minutes ≤ 1439 ∧
      ∃ h1 h2 m1 m2 : Char, s = [h1, h2, ':', m1, m2] ∧
        t.minutes = ((digitVal h1 * 10 + digitVal h2 : Nat) : Int) * 60 +
          ((digitVal m1 * 10 + digitVal m2 : Nat) : Int)) ∧
    (∀ (input : List Str) (sim : Simulator) (line2 : Str),
      parseInput input = .ok sim → input[1]? = some line2 →
      ∃ (s : Simulator) (body : List Str), sim.run = some s ∧
        main input = firstToken line2 :: body ++ secondToken line2 :: s.report ∧
        s.report.length = sim.N.toNat) := by
  constructor
  · intro s t h
    obtain ⟨h1, h2, m1, m2, hs, -, -, -, -, -, -, ht⟩ := Time.parse_eq_some s t h
    exact ⟨Time.str_parse s t h, (Time.parse_range s t h).1, (Time.parse_range s t h).2,
      h1, h2, m1, m2, hs, ht⟩
  · intro input sim line2 hp hl2
    obtain ⟨l1, l2, l3, rest, N, price, o, c, evs, hin, h1, h2, h3, hsim, -⟩ :=
      parseInput_ok input sim hp
    have hl : l2 = line2 := by
      rw [hin] at hl2; simpa using hl2
    subst hl
    obtain ⟨ho, hc, -⟩ := readHours_some l2 o c h2
    obtain ⟨s, body, hs, hm, -, -, hlen, -⟩ := main_of_ok input sim hp
    have hopen : sim.openTime = o := by rw [hsim]; rfl
    have hclose : sim.closeTime = c := by rw [hsim]; rfl
    refine ⟨s, body, hs, ?_, hlen⟩
    rw [hm, hopen, hclose, Time.str_parse _ _ ho, Time.str_parse _ _ hc]

/-- Witness for C6: `08:00` parses to 480 minutes and prints back, and the
first scenario's output starts with `08:00` and has `09:00` before the report. -/
theorem open_close_lines_are_header_tokens_witness :
    (Time.str ⟨480⟩ = "08:00".toList ∧ (0 : Int) ≤ 480 ∧ (480 : Int) ≤ 1439) ∧
    ∃ (s : Simulator) (body : List Str),
      (Simulator.init 1 ⟨480⟩ ⟨540⟩ 100).run = some s ∧
      main ["1".toList, "08:00 09:00".toList, "100".toList] =
        firstToken "08:00 09:00".toList :: body ++ secondToken "08:00 09:00".toList :: s.report ∧
      s.report.length = (Simulator.init 1 ⟨480⟩ ⟨540⟩ 100).N.toNat :=
  ⟨let h := open_close_lines_are_header_tokens.1 "08:00".toList ⟨480⟩ (by decide)
   ⟨h.1, h.2.1, h.2.2.1⟩,
   open_close_lines_are_header_tokens.2
     ["1".toList, "08:00 09:00".toList, "100".toList] _ "08:00 09:00".toList
     (by decide) (by decide)⟩

/-! ## The first scenario -/

/-- C9 as stated fails: the output of the first scenario has no line
`1 100 00:40`. -/
theorem scenario1_report_line_is_not_00_40 :
    ¬ ("1 100 00:40".toList ∈ main scenario1) := by
  decide

/-- C9, amended: for the first scenario (one table, 08:00 to 09:00, price
100, `08:10 1 ann`, `08:15 2 ann 1`, `08:50 4 ann`) no line carries the id
`11` and the report line of table 1 is `1 100 00:35`: ann occupied the table
from 08:15 to 08:50, 35 minutes billed as one hour. -/
theorem scenario1_output :
    main scenario1 =
      ["08:00".toList, "08:10 1 ann".toList, "08:15 2 ann 1".toList, "08:50 4 ann".toList,
       "09:00".toList, "1 100 00:35".toList] ∧
    (∀ l ∈ main scenario1, (l.drop 5).take 4 ≠ " 11 ".toList) ∧
    (main scenario1).getLast? = some "1 100 00:35".toList := by
  decide

/-! ## Arrival -/

theorem mapFind_mapSet_self (cs : Clients) (name : Str) (v : ClientInfo) :
    mapFind (mapSet cs name v) name = some v := by
  induction cs with
  | nil => simp [mapSet, mapFind]
  | cons p rest ih =>
    obtain ⟨k, w⟩ := p
    by_cases hk : k = name
    · simp [mapSet, mapFind, hk]
    · simp [mapSet, mapFind, hk, ih]

theorem mapFind_mapSet_other (cs : Clients) (name other : Str) (v : ClientInfo)
    (h : other ≠ name) : mapFind (mapSet cs name v) other = mapFind cs other := by
  induction cs with
  | nil => simp [mapSet, mapFind, Ne.symm h]
  | cons p rest ih =>
    obtain ⟨k, w⟩ := p
    by_cases hk : k = name
    · subst hk
      simp [mapSet, mapFind, Ne.symm h]
    · by_cases hk2 : k = other
      · subst hk2
        simp [mapSet, mapFind, h]
      · simp [mapSet, mapFind, hk, hk2, ih]

theorem Simulator.inQueue_iff (s : Simulator) (name : Str) :
    s.inQueue name = true ↔ name ∈ s.waiting := by
  simp [Simulator.inQueue]

/-- C10: for every state and every arrival of `name` at the current time `t`:
if `name` is a present client or is in the queue, the handler writes exactly
`t 13 YouShallNotPass`; otherwise, if `t` is outside `[openTime, closeTime)`,
it writes exactly `t 13 NotOpenYet` (in both cases nothing else changes);
otherwise it writes nothing, `name` becomes a present client that is not
seated, and tables, queue and the other clients are unchanged. In particular
the script `08:00 1 ann`, `08:01 1 ann` yields `08:01 13 YouShallNotPass`, and
an event placed after it is still processed. -/
theorem arrival_outcomes (s : Simulator) (e : Event) (name : Str)
    (hname : e.params.getD 0 [] = name) :
    (((mapFind s.clients name).isSome ∨ name ∈ s.waiting) →
      s.handleArrival e =
        { s with out := s.out ++
          [s.currentTime.str ++ " 13 ".toList ++ "YouShallNotPass".toList] }) ∧
    (¬ ((mapFind s.clients name).isSome ∨ name ∈ s.waiting) →
      (s.currentTime.minutes < s.openTime.minutes ∨
        s.closeTime.minutes ≤ s.currentTime.minutes) →
      s.handleArrival e =
        { s with out := s.out ++ [s.currentTime.str ++ " 13 ".toList ++ "NotOpenYet".toList] }) ∧
    (¬ ((mapFind s.clients name).isSome ∨ name ∈ s.waiting) →
      s.openTime.minutes ≤ s.currentTime.minutes →
      s.currentTime.minutes < s.closeTime.minutes →
      (s.handleArrival e).out = s.out ∧
      mapFind (s.handleArrival e).clients name =
        some { seated := false, table := -1, seatedSince := ⟨0⟩ } ∧
      (∀ other, other ≠ name →
        mapFind (s.handleArrival e).clients other = mapFind s.clients other) ∧
      (s.handleArrival e).tables = s.tables ∧ (s.handleArrival e).waiting = s.waiting) ∧
    main (scenario2.take 5) =
      ["08:00".toList, "08:00 1 ann".toList, "08:01 1 ann".toList,
       "08:01 13 YouShallNotPass".toList, "09:00 11 ann".toList,
       "09:00".toList, "1 0 00:00".toList] ∧
    main scenario2 =
      ["08:00".toList, "08:00 1 ann".toList, "08:01 1 ann".toList,
       "08:01 13 YouShallNotPass".toList, "08:02 2 ann 1".toList, "09:00 11 ann".toList,
       "09:00".toList, "1 100 00:58".toList] := by
  subst hname
  refine ⟨?_, ?_, ?_, by decide, by decide⟩
  · intro h
    have hc : (mapCount s.clients (e.params.getD 0 []) || s.inQueue (e.params.getD 0 [])) = true := by
      rw [Bool.or_eq_true, Simulator.inQueue_iff]
      exact h
    simp only [Simulator.handleArrival, hc, if_true, Simulator.error]
  · intro h ht
    have hc : (mapCount s.clients (e.params.getD 0 []) || s.inQueue (e.params.getD 0 [])) = false := by
      rw [← Bool.not_eq_true, Bool.or_eq_true, Simulator.inQueue_iff]
      exact h
    have hc2 : (decide (s.currentTime.minutes < s.openTime.minutes) ||
        decide (s.currentTime.minutes ≥ s.closeTime.minutes)) = true := by
      simpa using ht
    simp only [Simulator.handleArrival, hc, hc2, if_true, Bool.false_eq_true, if_false,
      Simulator.error]
  · intro h h1 h2
    have hc : (mapCount s.clients (e.params.getD 0 []) || s.inQueue (e.params.getD 0 [])) = false := by
      rw [← Bool.not_eq_true, Bool.or_eq_true, Simulator.inQueue_iff]
      exact h
    have hc2 : (decide (s.currentTime.minutes < s.openTime.minutes) ||
        decide (s.currentTime.minutes ≥ s.closeTime.minutes)) = false := by
      simp only [Bool.or_eq_false_iff, decide_eq_false_iff_not]
      omega
    simp only [Simulator.handleArrival, hc, hc2, Bool.false_eq_true, if_false]
    exact ⟨trivial, mapFind_mapSet_self _ _ _,
      fun other ho => mapFind_mapSet_other _ _ _ _ ho, trivial, trivial⟩

/-- Witness for C10: ann is a present client at 08:01; her second arrival is
answered by `08:01 13 YouShallNotPass` and nothing else changes. -/
theorem arrival_outcomes_witness :
    Simulator.handleArrival
        { Simulator.init 1 ⟨480⟩ ⟨540⟩ 100 with
          clients := [("ann".toList, {})], currentTime := ⟨481⟩ }
        { t := ⟨481⟩, id := 1, params := ["ann".toList] } =
      { Simulator.init 1 ⟨480⟩ ⟨540⟩ 100 with
        clients := [("ann".toList, {})], currentTime := ⟨481⟩,
        out := ["08:01 13 YouShallNotPass".toList] } :=
  (arrival_outcomes
      { Simulator.init 1 ⟨480⟩ ⟨540⟩ 100 with
        clients := [("ann".toList, {})], currentTime := ⟨481⟩ }
      { t := ⟨481⟩, id := 1, params := ["ann".toList] } "ann".toList rfl).1
    (Or.inl (by decide))

/-! ## Settlement -/

theorem roundUpHours_eq_ceil (d : Int) (hd : 0 ≤ d) : roundUpHours d = ⌈(d : ℚ) / 60⌉ := by
  have hr : roundUpHours d = (d + 59) / 60 := by
    unfold roundUpHours
    exact Int.tdiv_eq_ediv (by omega) (by omega)
  symm
  rw [Int.ceil_eq_iff, hr]
  constructor
  · rw [lt_div_iff₀ (by norm_num)]
    have : ((d + 59) / 60 - 1) * 60 < d := by omega
    exact_mod_cast this
  · rw [div_le_iff₀ (by norm_num)]
    have : d ≤ ((d + 59) / 60) * 60 := by omega
    exact_mod_cast this

namespace Simulator

theorem tableAt_settle_self (tables : List TableInfo) (T d p : Int)
    (hT : T.toNat < tables.length) :
    tableAt (settle tables T d p) T =
      { tableAt tables T with
        busyMin := (tableAt tables T).busyMin + d,
        revenue := (tableAt tables T).revenue + roundUpHours d * p,
        occupant := [] } := by
  simp [tableAt, settle, List.getElem?_set_self hT]

theorem tableAt_settle_other (tables : List TableInfo) (T i d p : Int)
    (h : T.toNat ≠ i.toNat) : tableAt (settle tables T d p) i = tableAt tables i := by
  simp [tableAt, settle, List.getElem?_set_ne h]

theorem tableAt_setOccupant (tables : List TableInfo) (j i : Int) (name : Str) :
    (tableAt (setOccupant tables j name) i).revenue = (tableAt tables i).revenue ∧
    (tableAt (setOccupant tables j name) i).busyMin = (tableAt tables i).busyMin := by
  by_cases h : j.toNat = i.toNat
  · by_cases hl : j.toNat < tables.length
    · simp [tableAt, setOccupant, List.getElem?_set_self hl, ← h]
    · have : tables.set j.toNat { tableAt tables j with occupant := name } = tables :=
        List.set_eq_of_length_le (by omega)
      simp only [setOccupant, this, and_self]
  · simp [tableAt, setOccupant, List.getElem?_set_ne h]

/-- The settlement block followed by any change that keeps revenue and
occupied minutes settles the table. -/
theorem settled_of_settle (tables new : List TableInfo) (T d p : Int) (hT0 : 0 ≤ T)
    (hT : T.toNat < tables.length) (hd : 0 ≤ d)
    (hnew : ∀ i : Int, (tableAt new i).revenue = (tableAt (settle tables T d p) i).revenue ∧
      (tableAt new i).busyMin = (tableAt (settle tables T d p) i).busyMin) :
    Settled tables new T d p := by
  refine ⟨?_, ?_, ?_⟩
  · rw [(hnew T).1, tableAt_settle_self tables T d p hT, roundUpHours_eq_ceil d hd]
  · rw [(hnew T).2, tableAt_settle_self tables T d p hT]
  · intro i hi hne
    have hne2 : T.toNat ≠ i.toNat := by omega
    rw [(hnew i).1, (hnew i).2, tableAt_settle_other tables T i d p hne2]
    exact ⟨rfl, rfl⟩

theorem seatNext_tables (s : Simulator) (freed : Int) (i : Int) :
    (tableAt (s.seatNext freed).tables i).revenue = (tableAt s.tables i).revenue ∧
    (tableAt (s.seatNext freed).tables i).busyMin = (tableAt s.tables i).busyMin := by
  unfold seatNext
  split
  · exact tableAt_setOccupant _ _ _ _
  · exact ⟨rfl, rfl⟩

end Simulator

/-- C8: when a client recorded as seated at table `T` since `S` stops
occupying it at a time `E ≥ S` (by a Leave at the current time, by a Sit that
succeeds, which is then a Sit at another table, or in the closing loop at the
closing time), the revenue of `T` grows by the ceiling of `(E - S) / 60` times
the price, its occupied minutes grow by `E - S`, and the revenue and occupied
minutes of every other table are unchanged. -/
theorem settlement_on_vacating (s : Simulator) (e : Event) (name : Str) (ci : ClientInfo)
    (hname : e.params.getD 0 [] = name)
    (hfind : mapFind s.clients name = some ci) (hseated : ci.seated = true)
    (hT0 : 0 ≤ ci.table) (hT : ci.table.toNat < s.tables.length) :
    (ci.seatedSince.minutes ≤ s.currentTime.minutes →
      Settled s.tables (s.handleLeave e).tables ci.table
        (s.currentTime.minutes - ci.seatedSince.minutes) s.pricePerHour) ∧
    (ci.seatedSince.minutes ≤ s.currentTime.minutes →
      ∀ s1 : Simulator, s.handleSit e = some s1 → s1.out = s.out →
        stoi (e.params.getD 1 []) ≠ some ci.table ∧
        Settled s.tables s1.tables ci.table
          (s.currentTime.minutes - ci.seatedSince.minutes) s.pricePerHour) ∧
    (ci.seatedSince.minutes ≤ s.closeTime.minutes →
      Settled s.tables (s.closeClient name).tables ci.table
        (s.closeTime.minutes - ci.seatedSince.minutes) s.pricePerHour) := by
  refine ⟨?_, ?_, ?_⟩
  · intro hle
    apply Simulator.settled_of_settle _ _ _ _ _ hT0 hT (by omega)
    intro i
    simp only [Simulator.handleLeave, hname, hfind, hseated, if_true]
    have h := Simulator.seatNext_tables (s.vacate name ci) ci.table i
    simpa [Simulator.vacate, Simulator.removeFromQueue, hseated] using h
  · intro hle s1 hs1 hout
    have hne : ∀ (l : Str), s.out ++ [l] ≠ s.out := by
      intro l hl
      have := congrArg List.length hl
      simp at this
    unfold Simulator.handleSit at hs1
    simp only [hname, hfind] at hs1
    split at hs1
    · exact absurd hs1 (by simp)
    · rename_i tableNum hstoi
      split at hs1
      · cases hs1; exact absurd hout (hne _)
      · split at hs1
        · cases hs1; exact absurd hout (hne _)
        · split at hs1
          · cases hs1; exact absurd hout (hne _)
          · rename_i hsame
            simp only [hseated, Bool.true_and, decide_eq_true_eq] at hsame
            simp only [hseated, if_true, Option.some.injEq] at hs1
            subst hs1
            refine ⟨?_, ?_⟩
            · intro hh
              rw [hstoi, Option.some.injEq] at hh
              exact hsame hh.symm
            · apply Simulator.settled_of_settle _ _ _ _ _ hT0 hT (by omega)
              intro i
              exact Simulator.tableAt_setOccupant _ _ _ _
  · intro hle
    apply Simulator.settled_of_settle _ _ _ _ _ hT0 hT (by omega)
    intro i
    simp only [Simulator.closeClient, mapIndex, hfind, Option.getD_some, hseated, if_true,
      and_self]

/-- Witness for C8: ann, seated at table 1 since 08:15, leaves at 08:50; table
1 is settled for 35 minutes at price 100. -/
theorem settlement_on_vacating_witness :
    Settled seatedState.tables
      (seatedState.handleLeave { t := ⟨530⟩, id := 4, params := ["ann".toList] }).tables
      1 35 100 ∧
    (Simulator.tableAt
      (seatedState.handleLeave { t := ⟨530⟩, id := 4, params := ["ann".toList] }).tables
      1).revenue = 100 :=
  ⟨(settlement_on_vacating seatedState { t := ⟨530⟩, id := 4, params := ["ann".toList] }
      "ann".toList { seated := true, table := 1, seatedSince := ⟨495⟩ }
      rfl (by decide) rfl (by decide) (by decide)).1 (by decide),
   by decide⟩


/-! ## Wait -/

theorem Simulator.freeExists_iff (s : Simulator) : s.freeExists = true ↔ s.HasFreeTable := by
  unfold Simulator.freeExists Simulator.HasFreeTable
  simp only [List.any_eq_true, List.mem_range, List.isEmpty_iff]
  constructor
  · rintro ⟨k, hk, hfree⟩
    exact ⟨((k + 1 : Nat) : Int), by omega, by omega, hfree⟩
  · rintro ⟨i, h1, h2, hfree⟩
    refine ⟨i.toNat - 1, by omega, ?_⟩
    have : ((i.toNat - 1 + 1 : Nat) : Int) = i := by omega
    rw [this]
    exact hfree

theorem sizeT_of_nonneg (n : Int) (h0 : 0 ≤ n) (h1 : n < 18446744073709551616) :
    sizeT n = n.toNat := by
  unfold sizeT
  rw [Int.emod_eq_of_lt h0 h1]

theorem mapFind_isSome_mapSet (cs : Clients) (name other : Str) (v : ClientInfo)
    (h : (mapFind cs other).isSome = true) : (mapFind (mapSet cs name v) other).isSome = true := by
  by_cases ho : other = name
  · subst ho; rw [mapFind_mapSet_self]; rfl
  · rw [mapFind_mapSet_other _ _ _ _ ho]; exact h

/-- C12: for every state and every Wait of `name` at the current time `t`: if
some table among `1 .. N` is free the handler writes exactly
`t 13 ICanWaitNoLonger!` and changes nothing else; otherwise, if the queue
holds `N` names or more, it writes exactly `t 11 name` and changes nothing
else (the queue in particular); otherwise it writes nothing, `name` is a
present client afterwards, the queue is the old queue with `name` appended,
and the tables and the records of the clients already present are unchanged. -/
theorem wait_outcomes (s : Simulator) (e : Event) (name : Str)
    (hname : e.params.getD 0 [] = name)
    (hN0 : 0 ≤ s.N) (hN : s.N < 18446744073709551616) :
    (s.HasFreeTable →
      s.handleWait e =
        { s with out := s.out ++
            [s.currentTime.str ++ " 13 ".toList ++ "ICanWaitNoLonger!".toList] }) ∧
    (¬ s.HasFreeTable → s.N ≤ (s.waiting.length : Int) →
      s.handleWait e =
        { s with out := s.out ++ [s.currentTime.str ++ " 11 ".toList ++ name] }) ∧
    (¬ s.HasFreeTable → (s.waiting.length : Int) < s.N →
      (s.handleWait e).out = s.out ∧
      (mapFind (s.handleWait e).clients name).isSome = true ∧
      (s.handleWait e).waiting = s.waiting ++ [name] ∧
      (s.handleWait e).tables = s.tables ∧
      (∀ other ci, mapFind s.clients other = some ci →
        mapFind (s.handleWait e).clients other = some ci)) := by
  have hsz := sizeT_of_nonneg s.N hN0 hN
  refine ⟨?_, ?_, ?_⟩
  · intro hfree
    have hf : s.freeExists = true := (Simulator.freeExists_iff s).mpr hfree
    simp only [Simulator.handleWait, hf, if_true, Simulator.error]
  · intro hfree hfull
    have hf : s.freeExists = false := by
      rw [← Bool.not_eq_true, Simulator.freeExists_iff]; exact hfree
    have hge : s.waiting.length ≥ sizeT s.N := by rw [hsz]; omega
    simp only [Simulator.handleWait, hf, Bool.false_eq_true, if_false, hge, if_true, hname]
  · intro hfree hroom
    have hf : s.freeExists = false := by
      rw [← Bool.not_eq_true, Simulator.freeExists_iff]; exact hfree
    have hge : ¬ s.waiting.length ≥ sizeT s.N := by rw [hsz]; omega
    simp only [Simulator.handleWait, hf, Bool.false_eq_true, if_false, hge, hname]
    refine ⟨trivial, ?_, trivial, trivial, ?_⟩
    · by_cases hc : mapCount s.clients name = true
      · simp only [hc, Bool.not_true, Bool.false_eq_true, if_false]
        exact hc
      · have hc2 : mapCount s.clients name = false := by simpa using hc
        simp only [hc2, Bool.not_false, if_true]
        rw [mapFind_mapSet_self]; rfl
    · intro other ci hother
      by_cases hc : mapCount s.clients name = true
      · simp only [hc, Bool.not_true, Bool.false_eq_true, if_false]
        exact hother
      · have hc2 : mapCount s.clients name = false := by simpa using hc
        simp only [hc2, Bool.not_false, if_true]
        have hne : other ≠ name := by
          intro hh
          subst hh
          simp [mapCount, hother] at hc2
        rw [mapFind_mapSet_other _ _ _ _ hne]
        exact hother

/-- Witness for C12: with one table taken by ann and an empty queue, the Wait
of bob at 08:05 writes nothing and puts bob at the tail of the queue. -/
theorem wait_outcomes_witness :
    ((Simulator.handleWait
        { Simulator.init 1 ⟨480⟩ ⟨540⟩ 100 with
          tables := [{}, { occupant := "ann".toList }],
          clients := [("ann".toList, { seated := true, table := 1, seatedSince := ⟨481⟩ })],
          currentTime := ⟨485⟩ }
        { t := ⟨485⟩, id := 3, params := ["bob".toList] }).waiting = [] ++ ["bob".toList]) :=
  ((wait_outcomes
      { Simulator.init 1 ⟨480⟩ ⟨540⟩ 100 with
        tables := [{}, { occupant := "ann".toList }],
        clients := [("ann".toList, { seated := true, table := 1, seatedSince := ⟨481⟩ })],
        currentTime := ⟨485⟩ }
      { t := ⟨485⟩, id := 3, params := ["bob".toList] } "bob".toList rfl
      (by decide) (by decide)).2.2
    (by
      rintro ⟨i, h1, h2, h3⟩
      have hi : i = 1 := by
        have : i ≤ 1 := h2
        omega
      subst hi
      exact absurd h3 (by decide))
    (by decide)).2.2.1

/-! ## Business-rule errors -/

theorem not_isErrorLine_11 (t : Time) (rest : Str) :
    ¬ IsErrorLine t (t.str ++ " 11 ".toList ++ rest) := by
  rintro ⟨msg, h⟩
  rw [List.append_assoc, List.append_assoc] at h
  have h2 := List.append_cancel_left h
  simp at h2

theorem not_isErrorLine_12 (t : Time) (rest : Str) :
    ¬ IsErrorLine t (t.str ++ " 12 ".toList ++ rest) := by
  rintro ⟨msg, h⟩
  rw [List.append_assoc, List.append_assoc] at h
  have h2 := List.append_cancel_left h
  simp at h2

namespace Simulator

theorem errorOrClean_error (s : Simulator) (msg : Str) : ErrorOrClean s (s.error msg) :=
  Or.inl ⟨msg, rfl⟩

theorem errorOrClean_silent (s s1 : Simulator) (h : s1.out = s.out) : ErrorOrClean s s1 :=
  Or.inr ⟨[], by simp [h], by simp⟩

theorem handleArrival_errorOrClean (s : Simulator) (e : Event) :
    ErrorOrClean s (s.handleArrival e) := by
  unfold handleArrival
  simp only []
  split
  · exact errorOrClean_error _ _
  · split
    · exact errorOrClean_error _ _
    · exact errorOrClean_silent _ _ rfl

theorem handleWait_errorOrClean (s : Simulator) (e : Event) :
    ErrorOrClean s (s.handleWait e) := by
  unfold handleWait
  simp only []
  split
  · exact errorOrClean_error _ _
  · split
    · refine Or.inr ⟨[_], rfl, ?_⟩
      intro line hl
      rw [List.mem_singleton] at hl
      rw [hl]
      exact not_isErrorLine_11 _ _
    · exact errorOrClean_silent _ _ rfl

theorem seatNext_clean (s : Simulator) (freed : Int) :
    ∃ l, (s.seatNext freed).out = s.out ++ l ∧
      ∀ line ∈ l, ¬ IsErrorLine s.currentTime line := by
  unfold seatNext
  split
  · refine ⟨[_], rfl, ?_⟩
    intro line hl
    rw [List.mem_singleton] at hl
    rw [hl, List.append_assoc]
    exact not_isErrorLine_12 _ _
  · exact ⟨[], by simp, by simp⟩

theorem handleLeave_errorOrClean (s : Simulator) (e : Event) :
    ErrorOrClean s (s.handleLeave e) := by
  unfold handleLeave
  simp only []
  split
  · exact errorOrClean_error _ _
  · rename_i ci _
    obtain ⟨l, hl, hclean⟩ := seatNext_clean (s.vacate (e.params.getD 0 []) ci)
      (if ci.seated = true then ci.table else -1)
    exact Or.inr ⟨l, by rw [hl]; simp [vacate, removeFromQueue], hclean⟩

theorem handleSit_errorOrClean (s s1 : Simulator) (e : Event) (h : s.handleSit e = some s1) :
    ErrorOrClean s s1 := by
  unfold handleSit at h
  simp only [] at h
  split at h
  · exact absurd h (by simp)
  · split at h
    · cases h; exact errorOrClean_error _ _
    · split at h
      · cases h; exact errorOrClean_error _ _
      · split at h
        · cases h; exact errorOrClean_error _ _
        · split at h
          · cases h; exact errorOrClean_error _ _
          · cases h
            apply errorOrClean_silent
            split <;> simp [removeFromQueue]

end Simulator

/-- C16: when the handler of an event writes an error line `t 13 <word>`, the
tables, the client map and the queue after the event are those before it, and
that line is the only one written for the event besides its echo. -/
theorem error_line_keeps_state (s s1 : Simulator) (ev : Event) (h : s.step ev = some s1) :
    ∃ l : List Str, s1.out = s.out ++ ev.rawLine :: l ∧
      ((∃ line ∈ l, IsErrorLine ev.t line) →
        s1.tables = s.tables ∧ s1.clients = s.clients ∧ s1.waiting = s.waiting ∧
        ∃ line, l = [line]) := by
  have key : ∀ s2 : Simulator,
      Simulator.ErrorOrClean { s with currentTime := ev.t, out := s.out ++ [ev.rawLine] } s2 →
      ∃ l : List Str, s2.out = s.out ++ ev.rawLine :: l ∧
        ((∃ line ∈ l, IsErrorLine ev.t line) →
          s2.tables = s.tables ∧ s2.clients = s.clients ∧ s2.waiting = s.waiting ∧
          ∃ line, l = [line]) := by
    intro s2 h2
    rcases h2 with ⟨msg, rfl⟩ | ⟨l, hl, hclean⟩
    · exact ⟨[ev.t.str ++ " 13 ".toList ++ msg], by simp [Simulator.error],
        fun _ => ⟨rfl, rfl, rfl, _, rfl⟩⟩
    · refine ⟨l, by simp [hl], ?_⟩
      rintro ⟨line, hmem, herr⟩
      exact absurd herr (hclean line hmem)
  unfold Simulator.step at h
  simp only [] at h
  split at h
  · cases h; exact key _ (Simulator.handleArrival_errorOrClean _ _)
  · split at h
    · exact key _ (Simulator.handleSit_errorOrClean _ _ _ h)
    · split at h
      · cases h; exact key _ (Simulator.handleWait_errorOrClean _ _)
      · split at h
        · cases h; exact key _ (Simulator.handleLeave_errorOrClean _ _)
        · cases h; exact key _ (Simulator.errorOrClean_silent _ _ rfl)

/-- Witness for C16: the Leave of an unknown client at 08:05 writes the echo
and one error line and leaves tables, clients and queue as they were. -/
theorem error_line_keeps_state_witness :
    ∃ l : List Str,
      (Simulator.error
        { Simulator.init 1 ⟨480⟩ ⟨540⟩ 100 with
          currentTime := ⟨485⟩, out := ["08:05 4 bob".toList] }
        "ClientUnknown".toList).out = [] ++ "08:05 4 bob".toList :: l ∧
      ((∃ line ∈ l, IsErrorLine ⟨485⟩ line) →
        (Simulator.error
          { Simulator.init 1 ⟨480⟩ ⟨540⟩ 100 with
            currentTime := ⟨485⟩, out := ["08:05 4 bob".toList] }
          "ClientUnknown".toList).tables = (Simulator.init 1 ⟨480⟩ ⟨540⟩ 100).tables ∧
        (Simulator.error
          { Simulator.init 1 ⟨480⟩ ⟨540⟩ 100 with
            currentTime := ⟨485⟩, out := ["08:05 4 bob".toList] }
          "ClientUnknown".toList).clients = (Simulator.init 1 ⟨480⟩ ⟨540⟩ 100).clients ∧
        (Simulator.error
          { Simulator.init 1 ⟨480⟩ ⟨540⟩ 100 with
            currentTime := ⟨485⟩, out := ["08:05 4 bob".toList] }
          "ClientUnknown".toList).waiting = (Simulator.init 1 ⟨480⟩ ⟨540⟩ 100).waiting ∧
        ∃ line, l = [line]) :=
  error_line_keeps_state (Simulator.init 1 ⟨480⟩ ⟨540⟩ 100)
    (Simulator.error
      { Simulator.init 1 ⟨480⟩ ⟨540⟩ 100 with
        currentTime := ⟨485⟩, out := ["08:05 4 bob".toList] }
      "ClientUnknown".toList)
    { t := ⟨485⟩, id := 4, params := ["bob".toList], rawLine := "08:05 4 bob".toList }
    (by decide)

/-! ## Leave and the queue -/

namespace Simulator

theorem settle_length (tables : List TableInfo) (i d p : Int) :
    (settle tables i d p).length = tables.length := by
  simp [settle]

theorem tableAt_setOccupant_self (tables : List TableInfo) (T : Int) (name : Str)
    (hT : T.toNat < tables.length) : (tableAt (setOccupant tables T name) T).occupant = name := by
  simp [tableAt, setOccupant, List.getElem?_set_self hT]

theorem vacate_waiting (s : Simulator) (name : Str) (ci : ClientInfo) :
    (s.vacate name ci).waiting = s.waiting.filter (fun x => decide (x ≠ name)) := by
  simp [vacate, removeFromQueue]

theorem vacate_tables_length (s : Simulator) (name : Str) (ci : ClientInfo) :
    (s.vacate name ci).tables.length = s.tables.length := by
  unfold vacate removeFromQueue
  simp only []
  split
  · exact settle_length _ _ _ _
  · rfl

end Simulator

/-- C14: when a present client seated at table `T` leaves at time `t` and the
queue without the leaver's name is `A :: rest`, the handler writes exactly
`t 12 A T`, `A` is recorded as seated at `T` since `t` and is the occupant of
`T`, and the queue becomes `rest` (the other names in their former order, so
a name queued after `A` stays behind it). When the leaver was not seated, or
that queue is empty, nothing is written. -/
theorem leave_seats_queue_head (s : Simulator) (e : Event) (name : Str) (ci : ClientInfo)
    (hname : e.params.getD 0 [] = name) (hfind : mapFind s.clients name = some ci) :
    (ci.seated = true → ci.table ≠ -1 →
      ∀ (A : Str) (rest : List Str),
        s.waiting.filter (fun x => decide (x ≠ name)) = A :: rest →
        (s.handleLeave e).out =
          s.out ++ [s.currentTime.str ++ " 12 ".toList ++ A ++ ' ' :: showInt ci.table] ∧
        (s.handleLeave e).waiting = rest ∧
        mapFind (s.handleLeave e).clients A =
          some { seated := true, table := ci.table, seatedSince := s.currentTime } ∧
        (ci.table.toNat < s.tables.length →
          (Simulator.tableAt (s.handleLeave e).tables ci.table).occupant = A)) ∧
    ((ci.seated = false ∨ s.waiting.filter (fun x => decide (x ≠ name)) = []) →
      (s.handleLeave e).out = s.out ∧
      (s.handleLeave e).waiting = s.waiting.filter (fun x => decide (x ≠ name))) := by
  constructor
  · intro hseated htable A rest hq
    have hv : (s.vacate name ci).waiting = A :: rest := by
      rw [Simulator.vacate_waiting]; exact hq
    have hcond : (decide (ci.table ≠ -1) && !(s.vacate name ci).waiting.isEmpty) = true := by
      simp [hv, htable]
    have hcur : (s.vacate name ci).currentTime = s.currentTime := by
      simp [Simulator.vacate, Simulator.removeFromQueue]
    have hout : (s.vacate name ci).out = s.out := by
      simp [Simulator.vacate, Simulator.removeFromQueue]
    simp only [Simulator.handleLeave, hname, hfind, hseated, if_true, Simulator.seatNext, hcond]
    simp only [hv, List.headD_cons, List.tail_cons, hcur, hout]
    refine ⟨trivial, trivial, mapFind_mapSet_self _ _ _, ?_⟩
    intro hT
    apply Simulator.tableAt_setOccupant_self
    rw [Simulator.vacate_tables_length]
    exact hT
  · intro h
    have hcond : (decide ((if ci.seated = true then ci.table else -1) ≠ -1) &&
        !(s.vacate name ci).waiting.isEmpty) = false := by
      rcases h with h | h
      · simp [h]
      · rw [Simulator.vacate_waiting, h]; simp
    simp only [Simulator.handleLeave, hname, hfind, Simulator.seatNext, hcond,
      Bool.false_eq_true, if_false]
    exact ⟨by simp [Simulator.vacate, Simulator.removeFromQueue], Simulator.vacate_waiting _ _ _⟩

/-- Witness for C14: ann leaves table 1 at 08:50 while bob and carl queue in
that order; bob is seated at table 1 and carl stays in the queue. -/
theorem leave_seats_queue_head_witness :
    (Simulator.handleLeave
        { seatedState with waiting := ["bob".toList, "carl".toList] }
        { t := ⟨530⟩, id := 4, params := ["ann".toList] }).out =
      [] ++ ["08:50 12 bob 1".toList] ∧
    (Simulator.handleLeave
        { seatedState with waiting := ["bob".toList, "carl".toList] }
        { t := ⟨530⟩, id := 4, params := ["ann".toList] }).waiting = ["carl".toList] :=
  let h := (leave_seats_queue_head
      { seatedState with waiting := ["bob".toList, "carl".toList] }
      { t := ⟨530⟩, id := 4, params := ["ann".toList] } "ann".toList
      { seated := true, table := 1, seatedSince := ⟨495⟩ } rfl (by decide)).1
    rfl (by decide) "bob".toList ["carl".toList] (by decide)
  ⟨h.1, h.2.1⟩

/-! ## Sit -/

namespace Simulator

theorem error_out_ne (s : Simulator) (msg : Str) : (s.error msg).out ≠ s.out := by
  intro h
  have := congrArg List.length h
  simp [error] at this

theorem error_injective (s : Simulator) (m1 m2 : Str) (h : s.error m1 = s.error m2) :
    m1 = m2 := by
  have h2 := congrArg Simulator.out h
  simp only [error] at h2
  have h3 := List.append_cancel_left h2
  simp only [List.cons.injEq, and_true] at h3
  exact List.append_cancel_left h3

/-- The outcome of `handleSit` for a present client and a table number in
range. -/
theorem handleSit_found (s : Simulator) (e : Event) (name : Str) (t : Int) (ci : ClientInfo)
    (hparams : e.params = [name, showInt t]) (ht1 : 1 ≤ t) (htN : t ≤ s.N)
    (hN : s.N ≤ 2147483647) (hfind : mapFind s.clients name = some ci) :
    (s.SitBusy name ci t → s.handleSit e = some (s.error "PlaceIsBusy".toList)) ∧
    (¬ s.SitBusy name ci t →
      ∃ s1 : Simulator, s.handleSit e = some s1 ∧ s1.out = s.out ∧
        s1.tables = setOccupant
          (if ci.seated = true then
            settle s.tables ci.table (s.currentTime.minutes - ci.seatedSince.minutes)
              s.pricePerHour
           else s.tables) t name ∧
        s1.clients = mapSet s.clients name
          { seated := true, seatedSince := s.currentTime, table := t } ∧
        s1.waiting = (if ci.seated = true then s.waiting
          else s.waiting.filter (fun x => decide (x ≠ name)))) := by
  have hstoi : stoi (e.params.getD 1 []) = some t := by
    rw [hparams]
    exact stoi_showInt t (by omega) (by omega)
  have hn : e.params.getD 0 [] = name := by rw [hparams]; rfl
  have hrange : (decide (t < 1) || decide (t > s.N)) = false := by
    simp only [Bool.or_eq_false_iff, decide_eq_false_iff_not]
    omega
  constructor
  · intro hbusy
    unfold handleSit
    simp only [hstoi, hn, hfind, hrange, Bool.false_eq_true, if_false]
    rcases hbusy with ⟨h1, h2⟩ | ⟨h1, h2⟩
    · have hc : (!(tableAt s.tables t).occupant.isEmpty &&
          decide ((tableAt s.tables t).occupant ≠ name)) = true := by
        simp [h1, h2]
      simp only [hc, if_true]
    · split
      · rfl
      · have hc : (ci.seated && decide (ci.table = t)) = true := by simp [h1, h2]
        simp only [hc, if_true]
  · intro hbusy
    have hc1 : (!(tableAt s.tables t).occupant.isEmpty &&
        decide ((tableAt s.tables t).occupant ≠ name)) = false := by
      by_contra hcon
      simp only [Bool.not_eq_false, Bool.and_eq_true, Bool.not_eq_true', List.isEmpty_eq_false,
        decide_eq_true_eq] at hcon
      exact hbusy (Or.inl ⟨by simpa using hcon.1, hcon.2⟩)
    have hc2 : (ci.seated && decide (ci.table = t)) = false := by
      by_contra hcon
      simp only [Bool.not_eq_false, Bool.and_eq_true, decide_eq_true_eq] at hcon
      exact hbusy (Or.inr hcon)
    unfold handleSit
    simp only [hstoi, hn, hfind, hrange, Bool.false_eq_true, if_false, hc1, hc2]
    refine ⟨_, rfl, ?_⟩
    split <;> simp [removeFromQueue]

end Simulator

/-- The outcomes of `handleSit` for a table `t` in `1 .. N`: the handler writes
`13 ClientUnknown` exactly when `name` is not a present client; for a present
client it writes `13 PlaceIsBusy` exactly when table `t` is occupied by a
different client or the client is already seated at `t`; otherwise it writes
nothing, the occupant of `t` is `name`, the client is recorded as seated at
`t` since the current time, and `name` is in the queue afterwards exactly when
the client was seated and already in the queue before. -/
theorem sit_outcomes (s : Simulator) (e : Event) (name : Str) (t : Int)
    (hparams : e.params = [name, showInt t]) (ht1 : 1 ≤ t) (htN : t ≤ s.N)
    (hN : s.N ≤ 2147483647) (hlen : t.toNat < s.tables.length) :
    (s.handleSit e = some (s.error "ClientUnknown".toList) ↔ mapFind s.clients name = none) ∧
    (∀ ci : ClientInfo, mapFind s.clients name = some ci →
      (s.handleSit e = some (s.error "PlaceIsBusy".toList) ↔ s.SitBusy name ci t) ∧
      (¬ s.SitBusy name ci t →
        ∃ s1 : Simulator, s.handleSit e = some s1 ∧ s1.out = s.out ∧
          (Simulator.tableAt s1.tables t).occupant = name ∧
          mapFind s1.clients name =
            some { seated := true, table := t, seatedSince := s.currentTime } ∧
          (name ∈ s1.waiting ↔ (ci.seated = true ∧ name ∈ s.waiting)))) := by
  have hgood : ∀ ci : ClientInfo, mapFind s.clients name = some ci → ¬ s.SitBusy name ci t →
      ∃ s1 : Simulator, s.handleSit e = some s1 ∧ s1.out = s.out ∧
        (Simulator.tableAt s1.tables t).occupant = name ∧
        mapFind s1.clients name =
          some { seated := true, table := t, seatedSince := s.currentTime } ∧
        (name ∈ s1.waiting ↔ (ci.seated = true ∧ name ∈ s.waiting)) := by
    intro ci hfind hbusy
    obtain ⟨s1, h1, h2, h3, h4, h5⟩ :=
      (Simulator.handleSit_found s e name t ci hparams ht1 htN hN hfind).2 hbusy
    refine ⟨s1, h1, h2, ?_, ?_, ?_⟩
    · rw [h3]
      apply Simulator.tableAt_setOccupant_self
      split
      · rw [Simulator.settle_length]; exact hlen
      · exact hlen
    · rw [h4]; exact mapFind_mapSet_self _ _ _
    · rw [h5]
      by_cases hs : ci.seated = true
      · simp [hs]
      · simp [hs]
  constructor
  · constructor
    · intro h
      rcases hfind : mapFind s.clients name with _ | ci
      · rfl
      · exfalso
        by_cases hbusy : s.SitBusy name ci t
        · have h2 := (Simulator.handleSit_found s e name t ci hparams ht1 htN hN hfind).1 hbusy
          rw [h2, Option.some.injEq] at h
          exact absurd (Simulator.error_injective s _ _ h) (by decide)
        · obtain ⟨s1, h1, h2, -⟩ := hgood ci hfind hbusy
          rw [h1, Option.some.injEq] at h
          rw [h] at h2
          exact Simulator.error_out_ne s _ h2
    · intro hnone
      have hstoi : stoi (e.params.getD 1 []) = some t := by
        rw [hparams]
        exact stoi_showInt t (by omega) (by omega)
      have hn : e.params.getD 0 [] = name := by rw [hparams]; rfl
      unfold Simulator.handleSit
      simp only [hstoi, hn, hnone]
  · intro ci hfind
    refine ⟨⟨?_, ?_⟩, hgood ci hfind⟩
    · intro h
      by_contra hbusy
      obtain ⟨s1, h1, h2, -⟩ := hgood ci hfind hbusy
      rw [h1, Option.some.injEq] at h
      rw [h] at h2
      exact Simulator.error_out_ne s _ h2
    · exact (Simulator.handleSit_found s e name t ci hparams ht1 htN hN hfind).1

/-- An instance of `sit_outcomes`: ann, seated at table 1 of two and not in
the queue, sits at the free table 2 at 08:50; nothing is written, table 2 is
hers and she is not in the queue. -/
theorem sit_outcomes_witness :
    ∃ s1 : Simulator,
      seatedState.handleSit
        { t := ⟨530⟩, id := 2, params := ["ann".toList, showInt 2] } = some s1 ∧
      s1.out = seatedState.out ∧
      (Simulator.tableAt s1.tables 2).occupant = "ann".toList ∧
      mapFind s1.clients "ann".toList =
        some { seated := true, table := 2, seatedSince := seatedState.currentTime } ∧
      "ann".toList ∉ s1.waiting := by
  obtain ⟨s1, h1, h2, h3, h4, h5⟩ :=
    ((sit_outcomes seatedState { t := ⟨530⟩, id := 2, params := ["ann".toList, showInt 2] }
        "ann".toList 2 rfl (by decide) (by decide) (by decide) (by decide)).2
      { seated := true, table := 1, seatedSince := ⟨495⟩ } (by decide)).2
      (by
        rintro (⟨h1, -⟩ | ⟨-, h2⟩)
        · exact h1 (by decide)
        · exact absurd h2 (by decide))
  refine ⟨s1, h1, h2, h3, h4, ?_⟩
  intro hmem
  have := (h5.mp hmem).2
  exact absurd this (by decide)

/-! ## Invariants of the client map and the queue -/

theorem clientNames_mapSet (cs : Clients) (name : Str) (v : ClientInfo) :
    clientNames (mapSet cs name v) =
      if mapCount cs name = true then clientNames cs else clientNames cs ++ [name] := by
  induction cs with
  | nil => simp [mapSet, clientNames, mapCount, mapFind]
  | cons p rest ih =>
    obtain ⟨k, w⟩ := p
    by_cases hk : k = name
    · simp [mapSet, clientNames, mapCount, mapFind, hk]
    · simp only [clientNames, mapCount] at ih
      simp only [mapSet, hk, if_false, clientNames, List.map_cons, mapCount, mapFind, ih]
      split <;> simp

theorem mem_clientNames_iff (cs : Clients) (name : Str) :
    name ∈ clientNames cs ↔ (mapFind cs name).isSome = true := by
  induction cs with
  | nil =>
    simp only [clientNames, List.map_nil, List.not_mem_nil, mapFind, Option.isSome_none,
      Bool.false_eq_true]
  | cons p rest ih =>
    obtain ⟨k, w⟩ := p
    have hcons : clientNames ((k, w) :: rest) = k :: clientNames rest := rfl
    rw [hcons, List.mem_cons]
    by_cases hk : k = name
    · subst hk
      simp only [mapFind, if_true, Option.isSome_some, true_or]
    · rw [ih]
      simp only [mapFind, hk, if_false]
      constructor
      · rintro (h | h)
        · exact absurd h.symm hk
        · exact h
      · intro h
        exact Or.inr h

theorem clientNames_mapErase (cs : Clients) (name : Str) :
    clientNames (mapErase cs name) = (clientNames cs).filter (fun x => decide (x ≠ name)) := by
  unfold clientNames mapErase
  rw [List.filter_map]
  rfl

theorem nodup_clientNames_mapSet (cs : Clients) (name : Str) (v : ClientInfo)
    (h : (clientNames cs).Nodup) : (clientNames (mapSet cs name v)).Nodup := by
  rw [clientNames_mapSet]
  split
  · exact h
  · rename_i hc
    have hnot : name ∉ clientNames cs := by
      rw [mem_clientNames_iff]
      exact hc
    exact List.Nodup.append h (List.nodup_singleton name) (by simpa using hnot)

theorem mem_clientNames_mapSet (cs : Clients) (name other : Str) (v : ClientInfo)
    (h : other ∈ clientNames cs ∨ other = name) : other ∈ clientNames (mapSet cs name v) := by
  rw [mem_clientNames_iff]
  rcases h with h | h
  · exact mapFind_isSome_mapSet cs name other v ((mem_clientNames_iff cs other).mp h)
  · subst h
    rw [mapFind_mapSet_self]; rfl

namespace Simulator

/-- A step that keeps `N`, keeps the client map or sets one entry, and leaves
a sublist of the queue keeps the invariant. -/
theorem QueueInv.of_shrink (s s1 : Simulator) (h : s.QueueInv) (hN : s1.N = s.N)
    (hc : s1.clients = s.clients ∨ ∃ n v, s1.clients = mapSet s.clients n v)
    (hw : s1.waiting.Sublist s.waiting) : s1.QueueInv := by
  obtain ⟨h1, h2, h3⟩ := h
  refine ⟨?_, ?_, ?_⟩
  · rcases hc with hc | ⟨n, v, hc⟩
    · rw [hc]; exact h1
    · rw [hc]; exact nodup_clientNames_mapSet _ _ _ h1
  · intro n hn
    have hn2 := h2 n (hw.subset hn)
    rcases hc with hc | ⟨m, v, hc⟩
    · rw [hc]; exact hn2
    · rw [hc]; exact mem_clientNames_mapSet _ _ _ _ (Or.inl hn2)
  · rw [hN]
    exact le_trans hw.length_le h3

theorem handleArrival_inv (s : Simulator) (e : Event) (h : s.QueueInv) :
    (s.handleArrival e).QueueInv := by
  apply QueueInv.of_shrink s _ h
  · exact (handleArrival_emits s e).choose_spec.1.1
  · unfold handleArrival
    simp only []
    split
    · exact Or.inl rfl
    · split
      · exact Or.inl rfl
      · exact Or.inr ⟨_, _, rfl⟩
  · unfold handleArrival
    simp only []
    split
    · exact List.Sublist.refl _
    · split <;> exact List.Sublist.refl _

theorem handleSit_inv (s s1 : Simulator) (e : Event) (hs : s.handleSit e = some s1)
    (h : s.QueueInv) : s1.QueueInv := by
  apply QueueInv.of_shrink s _ h
  · exact (handleSit_emits s s1 e hs).choose_spec.1.1
  · unfold handleSit at hs
    simp only [] at hs
    split at hs
    · exact absurd hs (by simp)
    · split at hs
      · cases hs; exact Or.inl rfl
      · split at hs
        · cases hs; exact Or.inl rfl
        · split at hs
          · cases hs; exact Or.inl rfl
          · split at hs
            · cases hs; exact Or.inl rfl
            · cases hs
              split <;> exact Or.inr ⟨_, _, rfl⟩
  · unfold handleSit at hs
    simp only [] at hs
    split at hs
    · exact absurd hs (by simp)
    · split at hs
      · cases hs; exact List.Sublist.refl _
      · split at hs
        · cases hs; exact List.Sublist.refl _
        · split at hs
          · cases hs; exact List.Sublist.refl _
          · split at hs
            · cases hs; exact List.Sublist.refl _
            · cases hs
              split
              · exact List.Sublist.refl _
              · exact List.filter_sublist _

theorem handleWait_inv (s : Simulator) (e : Event) (h : s.QueueInv) :
    (s.handleWait e).QueueInv := by
  obtain ⟨h1, h2, h3⟩ := h
  unfold handleWait
  simp only []
  split
  · exact ⟨h1, h2, h3⟩
  · split
    · exact ⟨h1, h2, h3⟩
    · rename_i hroom
      refine ⟨?_, ?_, ?_⟩
      · simp only []
        split
        · exact nodup_clientNames_mapSet _ _ _ h1
        · exact h1
      · intro n hn
        simp only [List.mem_append, List.mem_singleton] at hn
        simp only []
        split
        · exact mem_clientNames_mapSet _ _ _ _ (hn.imp_left (h2 n))
        · rename_i hc
          rcases hn with hn | hn
          · exact h2 n hn
          · subst hn
            rw [mem_clientNames_iff]
            have hc2 : ¬ (!mapCount s.clients (e.params.getD 0 [])) = true := hc
            rw [Bool.not_eq_true', Bool.not_eq_false] at hc2
            exact hc2
      · simp only [List.length_append, List.length_singleton]
        omega

theorem vacate_inv (s : Simulator) (name : Str) (ci : ClientInfo) (h : s.QueueInv) :
    (s.vacate name ci).QueueInv := by
  obtain ⟨h1, h2, h3⟩ := h
  have hN : (s.vacate name ci).N = s.N := (vacate_emits s name ci).1
  have hc : (s.vacate name ci).clients = mapErase s.clients name := by
    simp [vacate, removeFromQueue]
  refine ⟨?_, ?_, ?_⟩
  · rw [hc, clientNames_mapErase]
    exact h1.filter _
  · intro n hn
    rw [vacate_waiting, List.mem_filter] at hn
    rw [hc, clientNames_mapErase, List.mem_filter]
    exact ⟨h2 n hn.1, hn.2⟩
  · rw [hN, vacate_waiting]
    exact le_trans (List.length_filter_le _ _) h3

theorem seatNext_inv (s : Simulator) (freed : Int) (h : s.QueueInv) :
    (s.seatNext freed).QueueInv := by
  apply QueueInv.of_shrink s _ h
  · exact (seatNext_emits s freed).choose_spec.1.1
  · unfold seatNext
    split
    · exact Or.inr ⟨_, _, rfl⟩
    · exact Or.inl rfl
  · unfold seatNext
    split
    · exact List.tail_sublist _
    · exact List.Sublist.refl _

theorem handleLeave_inv (s : Simulator) (e : Event) (h : s.QueueInv) :
    (s.handleLeave e).QueueInv := by
  unfold handleLeave
  simp only []
  split
  · exact h
  · exact seatNext_inv _ _ (vacate_inv _ _ _ h)

theorem step_inv (s s1 : Simulator) (ev : Event) (hs : s.step ev = some s1) (h : s.QueueInv) :
    s1.QueueInv := by
  have h0 : QueueInv { s with currentTime := ev.t, out := s.out ++ [ev.rawLine] } := h
  unfold step at hs
  simp only [] at hs
  split at hs
  · cases hs; exact handleArrival_inv _ _ h0
  · split at hs
    · exact handleSit_inv _ _ _ hs h0
    · split at hs
      · cases hs; exact handleWait_inv _ _ h0
      · split at hs
        · cases hs; exact handleLeave_inv _ _ h0
        · cases hs; exact h0

theorem processEvents_inv : ∀ (evs : List Event) (s s1 : Simulator),
    s.processEvents evs = some s1 → s.QueueInv → s1.QueueInv := by
  intro evs
  induction evs with
  | nil =>
    intro s s1 h hinv
    simp only [processEvents, Option.some.injEq] at h
    subst h
    exact hinv
  | cons ev evs ih =>
    intro s s1 h hinv
    simp only [processEvents] at h
    split at h
    · exact absurd h (by simp)
    · rename_i s2 hs2
      exact ih _ _ h (step_inv _ _ _ hs2 hinv)

theorem queueInv_of_initial (s : Simulator) (h : s.Initial) : s.QueueInv := by
  obtain ⟨-, -, -, hc, hw⟩ := h
  refine ⟨?_, ?_, ?_⟩
  · rw [hc]; exact List.nodup_nil
  · rw [hw]; simp
  · rw [hw]; simp

theorem queueInv_of_reachable (s : Simulator) (h : s.Reachable) :
    s.QueueInv ∧ 1 ≤ s.N ∧ s.N ≤ 1000 := by
  obtain ⟨s0, evs, hinit, -, hp⟩ := h
  obtain ⟨l, hl, -⟩ := processEvents_emits evs s0 s hp
  have hN : s.N = s0.N := hl.1
  rw [hN]
  exact ⟨by
      have := processEvents_inv evs s0 s hp (queueInv_of_initial s0 hinit)
      exact this, hinit.1, hinit.2.1⟩

end Simulator

/-! ## The states an accepted script reaches -/

theorem parseNameArgs_valid (iss : IStream) (ps : List Str) (h : parseNameArgs iss = some ps) :
    ∃ name : Str, validName name = true ∧ ps = [name] := by
  unfold parseNameArgs at h
  simp only [] at h
  split at h
  · exact absurd h (by simp)
  · rename_i hc
    simp only [Bool.or_eq_true, not_or, Bool.not_eq_true', Bool.not_eq_false] at hc
    cases h
    exact ⟨_, hc.1.2, rfl⟩

theorem parseSitArgs_valid (N : Int) (iss : IStream) (ps : List Str)
    (h : parseSitArgs N iss = some ps) :
    ∃ (name : Str) (t : Int), validName name = true ∧ 1 ≤ t ∧ t ≤ N ∧ ps = [name, showInt t] := by
  unfold parseSitArgs at h
  simp only [] at h
  split at h
  · exact absurd h (by simp)
  · rename_i hc
    simp only [Bool.or_eq_true, decide_eq_true_eq, not_or, not_le, Bool.not_eq_true',
      Bool.not_eq_false, not_lt] at hc
    cases h
    exact ⟨_, _, hc.1.1.1.2, by omega, by omega, rfl⟩

/-- An accepted event line yields a validated event. -/
theorem parseEventLine_valid (N : Int) (prev : Time) (k : Int) (line : Str) (ev : Event)
    (h : parseEventLine N prev k line = some ev) : ev.Valid N := by
  unfold parseEventLine at h
  simp only [] at h
  split at h
  · exact absurd h (by simp)
  · split at h
    · exact absurd h (by simp)
    · split at h
      · exact absurd h (by simp)
      · split at h
        · exact absurd h (by simp)
        · rename_i params hargs
          cases h
          split at hargs
          · rename_i hid
            exact Or.inl ⟨Or.inl hid, parseNameArgs_valid _ _ hargs⟩
          · split at hargs
            · rename_i hid
              exact Or.inr ⟨hid, parseSitArgs_valid _ _ _ hargs⟩
            · split at hargs
              · rename_i hid
                exact Or.inl ⟨Or.inr (Or.inl hid), parseNameArgs_valid _ _ hargs⟩
              · split at hargs
                · rename_i hid
                  exact Or.inl ⟨Or.inr (Or.inr hid), parseNameArgs_valid _ _ hargs⟩
                · exact absurd hargs (by simp)

theorem readEvents_valid (N : Int) : ∀ (lines : List Str) (lineNo : Int) (prev : Time)
    (sim sim1 : Simulator), readEvents N lines lineNo prev sim = .ok sim1 →
    (∀ ev ∈ sim.events, ev.Valid N) → ∀ ev ∈ sim1.events, ev.Valid N := by
  intro lines
  induction lines with
  | nil =>
    intro lineNo prev sim sim1 h hv
    simp only [readEvents, Except.ok.injEq] at h
    subst h
    exact hv
  | cons line rest ih =>
    intro lineNo prev sim sim1 h hv
    by_cases he : line.isEmpty = true
    · simp only [readEvents, he, if_true] at h
      exact ih _ _ _ _ h hv
    · have he2 : line.isEmpty = false := by simpa using he
      simp only [readEvents, he2, Bool.false_eq_true, if_false] at h
      split at h
      · exact absurd h (by simp)
      · rename_i ev hev
        apply ih _ _ _ _ h
        intro e hmem
        simp only [Simulator.addInputEvent, List.mem_append, List.mem_singleton] at hmem
        rcases hmem with hmem | rfl
        · exact hv e hmem
        · exact parseEventLine_valid _ _ _ _ _ hev

/-- The simulator built from an accepted script starts the event loop in an
initial state and its events are validated. -/
theorem parseInput_initial (input : List Str) (sim : Simulator)
    (hp : parseInput input = .ok sim) :
    Simulator.Initial { sim with out := sim.out ++ [sim.openTime.str] } ∧
    ∀ ev ∈ sim.events, ev.Valid sim.N := by
  obtain ⟨l1, l2, l3, rest, N, price, o, c, evs, hin, h1, h2, h3, hsim, -⟩ :=
    parseInput_ok input sim hp
  have hN := readTableCount_pos l1 N h1
  constructor
  · rw [hsim]
    exact ⟨hN.1, hN.2, rfl, rfl, rfl⟩
  · unfold parseInput at hp
    split at hp
    · simp at hp
    · rename_i h rest2 hh
      have hv := readEvents_valid _ _ _ _ _ _ hp (by simp [Simulator.init])
      obtain ⟨e1, -⟩ := readEvents_ok _ _ _ _ _ _ hp
      have hN2 : sim.N = h.nTables := by
        obtain ⟨evs2, hs2, -⟩ := readEvents_ok _ _ _ _ _ _ hp
        rw [hs2]; rfl
      rw [hN2]
      exact hv

/-- The state after the last event of an accepted script is reachable. -/
theorem reachable_of_stateAfterEvents (input : List Str) (s : Simulator)
    (h : stateAfterEvents input = some s) : s.Reachable := by
  unfold stateAfterEvents at h
  split at h
  · exact absurd h (by simp)
  · rename_i sim hp
    obtain ⟨hinit, hvalid⟩ := parseInput_initial input sim hp
    exact ⟨_, sim.events, hinit, hvalid, h⟩

/-- C13: in every state reached from an initial state by validated events the
queue holds at most `N` names. -/
theorem queue_holds_at_most_N (s : Simulator) (h : s.Reachable) :
    (s.waiting.length : Int) ≤ s.N := by
  obtain ⟨⟨-, -, h3⟩, hN1, hN2⟩ := Simulator.queueInv_of_reachable s h
  rw [sizeT_of_nonneg s.N (by omega) (by omega)] at h3
  omega

/-- Witness for C13: after the script `scriptWaitTwice` (two tables) the queue
holds two names, and two is at most `N`. -/
theorem queue_holds_at_most_N_witness :
    ∃ s : Simulator, stateAfterEvents scriptWaitTwice = some s ∧
      s.waiting.length = 2 ∧ (s.waiting.length : Int) ≤ s.N := by
  have hs : (stateAfterEvents scriptWaitTwice).isSome = true := by decide
  obtain ⟨s, hs2⟩ := Option.isSome_iff_exists.mp hs
  have hlen : (stateAfterEvents scriptWaitTwice).map (fun s => s.waiting.length) = some 2 := by
    decide
  rw [hs2] at hlen
  exact ⟨s, hs2, by simpa using hlen,
    queue_holds_at_most_N s (reachable_of_stateAfterEvents scriptWaitTwice s hs2)⟩

/-! ## Sorting the names at closing time -/

theorem char_eq_of_toNat_eq (a b : Char) (h : a.toNat = b.toNat) : a = b := by
  rw [← Char.ofNat_toNat a, ← Char.ofNat_toNat b, h]

theorem strLt_irrefl : ∀ a : Str, strLt a a = false := by
  intro a
  induction a with
  | nil => rfl
  | cons c cs ih => simp [strLt, ih]

theorem strLt_trans : ∀ a b c : Str, strLt a b = true → strLt b c = true → strLt a c = true := by
  intro a
  induction a with
  | nil =>
    intro b c hab hbc
    cases b with
    | nil => simp [strLt] at hab
    | cons y ys =>
      cases c with
      | nil => simp [strLt] at hbc
      | cons z zs => simp [strLt]
  | cons x xs ih =>
    intro b c hab hbc
    cases b with
    | nil => simp [strLt] at hab
    | cons y ys =>
      cases c with
      | nil => simp [strLt] at hbc
      | cons z zs =>
        simp only [strLt] at hab hbc ⊢
        by_cases h1 : x.toNat < y.toNat
        · by_cases h2 : y.toNat < z.toNat
          · have : x.toNat < z.toNat := by omega
            simp [this]
          · simp only [h2, if_false] at hbc
            by_cases h3 : z.toNat < y.toNat
            · simp [h3] at hbc
            · have : x.toNat < z.toNat := by omega
              simp [this]
        · simp only [h1, if_false] at hab
          by_cases h4 : y.toNat < x.toNat
          · simp [h4] at hab
          · simp only [h4, if_false] at hab
            have hxy : x.toNat = y.toNat := by omega
            by_cases h2 : y.toNat < z.toNat
            · have : x.toNat < z.toNat := by omega
              simp [this]
            · simp only [h2, if_false] at hbc
              by_cases h3 : z.toNat < y.toNat
              · simp [h3] at hbc
              · simp only [h3, if_false] at hbc
                have h5 : ¬ x.toNat < z.toNat := by omega
                have h6 : ¬ z.toNat < x.toNat := by omega
                simp only [h5, h6, if_false]
                exact ih ys zs hab hbc

theorem strLt_total : ∀ a b : Str, a ≠ b → strLt a b = true ∨ strLt b a = true := by
  intro a
  induction a with
  | nil =>
    intro b hne
    cases b with
    | nil => exact absurd rfl hne
    | cons y ys => left; rfl
  | cons x xs ih =>
    intro b hne
    cases b with
    | nil => right; rfl
    | cons y ys =>
      simp only [strLt]
      by_cases h1 : x.toNat < y.toNat
      · left; simp [h1]
      · by_cases h2 : y.toNat < x.toNat
        · right; simp [h2]
        · have hxy : x = y := char_eq_of_toNat_eq x y (by omega)
          subst hxy
          have hne2 : xs ≠ ys := by
            intro h; exact hne (by rw [h])
          simp only [h1, if_false]
          exact ih ys hne2

theorem insertName_perm (x : Str) : ∀ l : List Str, (insertName x l).Perm (x :: l) := by
  intro l
  induction l with
  | nil => exact List.Perm.refl _
  | cons y ys ih =>
    simp only [insertName]
    split
    · exact (List.Perm.cons y ih).trans (List.Perm.swap x y ys)
    · exact List.Perm.refl _

theorem sortNames_perm : ∀ l : List Str, (sortNames l).Perm l := by
  intro l
  induction l with
  | nil => exact List.Perm.refl _
  | cons x xs ih =>
    have h : sortNames (x :: xs) = insertName x (sortNames xs) := rfl
    rw [h]
    exact (insertName_perm x _).trans (List.Perm.cons x ih)

theorem insertName_sorted (x : Str) : ∀ l : List Str,
    l.Pairwise (fun a b => strLt a b = true) → x ∉ l →
    (insertName x l).Pairwise (fun a b => strLt a b = true) := by
  intro l
  induction l with
  | nil => intro _ _; simp [insertName]
  | cons y ys ih =>
    intro hs hx
    rw [List.pairwise_cons] at hs
    have hxy : x ≠ y := fun h => hx (by rw [h]; exact List.mem_cons_self _ _)
    have hxys : x ∉ ys := fun h => hx (List.mem_cons_of_mem _ h)
    simp only [insertName]
    split
    · rename_i hlt
      rw [List.pairwise_cons]
      refine ⟨?_, ih hs.2 hxys⟩
      intro z hz
      rcases List.mem_cons.mp ((insertName_perm x ys).subset hz) with rfl | hz2
      · exact hlt
      · exact hs.1 z hz2
    · rename_i hlt
      have hxlt : strLt x y = true := by
        rcases strLt_total x y hxy with h | h
        · exact h
        · exact absurd h hlt
      rw [List.pairwise_cons]
      refine ⟨?_, List.pairwise_cons.mpr hs⟩
      intro z hz
      rcases List.mem_cons.mp hz with rfl | hz2
      · exact hxlt
      · exact strLt_trans x y z hxlt (hs.1 z hz2)

theorem sortNames_sorted : ∀ l : List Str, l.Nodup →
    (sortNames l).Pairwise (fun a b => strLt a b = true) := by
  intro l
  induction l with
  | nil => intro _; exact List.Pairwise.nil
  | cons x xs ih =>
    intro hnd
    rw [List.nodup_cons] at hnd
    have h : sortNames (x :: xs) = insertName x (sortNames xs) := rfl
    rw [h]
    apply insertName_sorted x _ (ih hnd.2)
    intro hmem
    exact hnd.1 ((sortNames_perm xs).subset hmem)

/-! ## End of day -/

/-- The output of `run` after the event loop: one line `11` per key of the
client map, in sorted order, the closing time, the report. -/
theorem Simulator.run_closing (s final : Simulator) (h : s.run = some final) :
    ∃ s1 : Simulator, s.afterEvents = some s1 ∧
      final.out = s1.out ++
        (sortNames (clientNames s1.clients)).map
          (fun n => s.closeTime.str ++ " 11 ".toList ++ n) ++
        s.closeTime.str :: final.report := by
  unfold Simulator.run at h
  simp only [] at h
  split at h
  · exact absurd h (by simp)
  · rename_i s2 hs2
    obtain ⟨l1, hl1, -⟩ := Simulator.processEvents_emits _ _ _ hs2
    have hclose : s2.closeTime = s.closeTime := hl1.2.2.1
    obtain ⟨c1, c2, c3, c4, c5, c6⟩ := Simulator.closeDay_emits s2
    cases h
    refine ⟨s2, hs2, ?_⟩
    simp only [c6, c3, hclose, clientNames, Simulator.report, Simulator.reportLine,
      Simulator.tableAt, List.append_assoc, List.singleton_append]

/-- C15: for every accepted script the lines between the output of the last
event and the closing-time line are the lines `<closeTime> 11 <name>` for the
names of the clients present after the last event (the keys of the client
map, which include every queued name), each name exactly once, in strictly
increasing order of `std::string`. -/
theorem closing_lines_sorted_by_name (input : List Str) (sim : Simulator)
    (hp : parseInput input = .ok sim) :
    ∃ (s1 final : Simulator) (names : List Str),
      sim.afterEvents = some s1 ∧ sim.run = some final ∧
      main input = s1.out ++
        names.map (fun n => sim.closeTime.str ++ " 11 ".toList ++ n) ++
        sim.closeTime.str :: final.report ∧
      names.Perm (clientNames s1.clients) ∧ names.Nodup ∧
      (∀ n, n ∈ names ↔ (mapFind s1.clients n).isSome = true) ∧
      (∀ n ∈ s1.waiting, n ∈ names) ∧
      names.Pairwise (fun a b => strLt a b = true) := by
  obtain ⟨final, -, hrun, -⟩ := main_of_ok input sim hp
  obtain ⟨s1, hs1, hout⟩ := Simulator.run_closing sim final hrun
  have hreach : s1.Reachable := by
    apply reachable_of_stateAfterEvents input
    simp only [stateAfterEvents, hp]
    exact hs1
  obtain ⟨⟨hnd, hq, -⟩, -, -⟩ := Simulator.queueInv_of_reachable s1 hreach
  have hperm := sortNames_perm (clientNames s1.clients)
  refine ⟨s1, final, sortNames (clientNames s1.clients), hs1, hrun, ?_, hperm,
    hperm.nodup_iff.mpr hnd, ?_, ?_, sortNames_sorted _ hnd⟩
  · simp only [main, hp, hrun, hout]
  · intro n
    rw [hperm.mem_iff, mem_clientNames_iff]
  · intro n hn
    exact hperm.symm.subset (hq n hn)

/-- Witness for C15: the script `scriptWaitTwice` is accepted and leaves ann,
bob and carl in the club; its closing lines are theirs, in that order. -/
theorem closing_lines_sorted_by_name_witness :
    ∃ (sim s1 final : Simulator) (names : List Str),
      parseInput scriptWaitTwice = .ok sim ∧
      sim.afterEvents = some s1 ∧ sim.run = some final ∧
      main scriptWaitTwice = s1.out ++
        names.map (fun n => sim.closeTime.str ++ " 11 ".toList ++ n) ++
        sim.closeTime.str :: final.report ∧
      names.Perm (clientNames s1.clients) ∧ names.Nodup ∧
      (∀ n, n ∈ names ↔ (mapFind s1.clients n).isSome = true) ∧
      (∀ n ∈ s1.waiting, n ∈ names) ∧
      names.Pairwise (fun a b => strLt a b = true) := by
  rcases hp : parseInput scriptWaitTwice with n | sim
  · have hok : (match parseInput scriptWaitTwice with
        | .ok _ => true
        | .error _ => false) = true := by decide
    rw [hp] at hok
    exact absurd hok (by simp)
  · obtain ⟨s1, final, names, h⟩ := closing_lines_sorted_by_name scriptWaitTwice sim hp
    exact ⟨sim, s1, final, names, rfl, h⟩

/-! ## States the spec excludes and the code reaches -/

/-- C11 (the code departs from the claim): the script `scriptSitWhileQueued`
is accepted; before its last event ann is seated at table 2 and is in the
queue (she sent Wait while seated), and her Sit at table 1 at 09:20 succeeds:
no error line follows the event, ann is recorded as seated at table 1 since
09:20, and in the reachable state after the event ann is still in the queue. -/
theorem sit_keeps_seated_client_in_queue :
    main scriptSitWhileQueued =
      ["08:00".toList, "08:00 1 ann".toList, "08:00 1 bob".toList, "08:01 2 ann 1".toList,
       "08:02 2 bob 2".toList, "08:03 3 ann".toList, "09:00 4 bob".toList,
       "09:00 12 ann 2".toList, "09:10 3 ann".toList, "09:20 2 ann 1".toList,
       "19:00 11 ann".toList, "19:00".toList, "1 100 09:40".toList, "2 20 01:18".toList] ∧
    (stateAfterEvents (scriptSitWhileQueued.take 10)).map
        (fun s => (s.waiting, mapFind s.clients "ann".toList)) =
      some (["ann".toList],
        some { seated := true, table := 2, seatedSince := ⟨540⟩ }) ∧
    ∃ s : Simulator, s.Reachable ∧ stateAfterEvents scriptSitWhileQueued = some s ∧
      mapFind s.clients "ann".toList =
        some { seated := true, table := 1, seatedSince := ⟨560⟩ } ∧
      (Simulator.tableAt s.tables 1).occupant = "ann".toList ∧
      "ann".toList ∈ s.waiting := by
  have h : (stateAfterEvents scriptSitWhileQueued).map
      (fun s => (mapFind s.clients "ann".toList, (Simulator.tableAt s.tables 1).occupant,
        s.waiting)) =
      some (some { seated := true, table := 1, seatedSince := ⟨560⟩ }, "ann".toList,
        ["ann".toList]) := by
    decide
  obtain ⟨s, hs, hw⟩ := Option.map_eq_some'.mp h
  simp only [Prod.mk.injEq] at hw
  refine ⟨by decide, by decide, s, reachable_of_stateAfterEvents _ s hs, hs, hw.1, hw.2.1, ?_⟩
  rw [hw.2.2]
  simp

/-- C17 (the code departs from the claim): after the accepted script
`scriptWaitTwice`, in which carl sends Wait twice while both tables are taken,
the reachable state has carl twice in the queue. -/
theorem queue_can_hold_a_name_twice :
    ∃ s : Simulator, s.Reachable ∧ stateAfterEvents scriptWaitTwice = some s ∧
      s.waiting = ["carl".toList, "carl".toList] ∧ ¬ s.waiting.Nodup := by
  have h : (stateAfterEvents scriptWaitTwice).map (fun s => s.waiting) =
      some ["carl".toList, "carl".toList] := by decide
  obtain ⟨s, hs, hw⟩ := Option.map_eq_some'.mp h
  refine ⟨s, reachable_of_stateAfterEvents _ s hs, hs, hw, ?_⟩
  rw [hw]
  decide

/-- C18 (the code departs from the claim): after the accepted script
`scriptSeatedWaits`, in which ann sits at the only table and then sends Wait,
the reachable state records ann as seated at table 1 and has ann in the queue. -/
theorem seated_client_can_be_queued :
    ∃ s : Simulator, s.Reachable ∧ stateAfterEvents scriptSeatedWaits = some s ∧
      mapFind s.clients "ann".toList =
        some { seated := true, table := 1, seatedSince := ⟨481⟩ } ∧
      "ann".toList ∈ s.waiting := by
  have h : (stateAfterEvents scriptSeatedWaits).map
      (fun s => (mapFind s.clients "ann".toList, s.waiting)) =
      some (some { seated := true, table := 1, seatedSince := ⟨481⟩ }, ["ann".toList]) := by
    decide
  obtain ⟨s, hs, hw⟩ := Option.map_eq_some'.mp h
  simp only [Prod.mk.injEq] at hw
  refine ⟨s, reachable_of_stateAfterEvents _ s hs, hs, hw.1, ?_⟩
  rw [hw.2]
  simp

/-- C19 (the code departs from the claim): after the accepted script
`scriptTwoTables` ann, seated at table 1 and queued, has been seated from the
queue at table 2 as well: both tables have the occupant ann while ann is
recorded at table 2 only, and table 1 is never settled (the report gives it
no revenue and no occupied time). -/
theorem client_can_occupy_two_tables :
    (∃ s : Simulator, s.Reachable ∧ stateAfterEvents scriptTwoTables = some s ∧
      (Simulator.tableAt s.tables 1).occupant = "ann".toList ∧
      (Simulator.tableAt s.tables 2).occupant = "ann".toList ∧
      mapFind s.clients "ann".toList =
        some { seated := true, table := 2, seatedSince := ⟨540⟩ }) ∧
    main scriptTwoTables =
      ["08:00".toList, "08:00 1 ann".toList, "08:00 1 bob".toList, "08:01 2 ann 1".toList,
       "08:02 2 bob 2".toList, "08:03 3 ann".toList, "09:00 4 bob".toList,
       "09:00 12 ann 2".toList, "19:00 11 ann".toList, "19:00".toList,
       "1 0 00:00".toList, "2 110 10:58".toList] := by
  have h : (stateAfterEvents scriptTwoTables).map
      (fun s => ((Simulator.tableAt s.tables 1).occupant,
        (Simulator.tableAt s.tables 2).occupant, mapFind s.clients "ann".toList)) =
      some ("ann".toList, "ann".toList,
        some { seated := true, table := 2, seatedSince := ⟨540⟩ }) := by
    decide
  obtain ⟨s, hs, hw⟩ := Option.map_eq_some'.mp h
  simp only [Prod.mk.injEq] at hw
  exact ⟨⟨s, reachable_of_stateAfterEvents _ s hs, hs, hw.1, hw.2.1, hw.2.2⟩, by decide⟩

/-- C20 (the code departs from the claim): the script `scriptLateSit` is
accepted; ann sits at 23:50, after the closing time 09:00, so the duration
settled at closing is `540 - 1430 = -890` minutes and the report line of table
1 shows a negative revenue and a busy time that is no `HH:MM`. -/
theorem late_sit_gives_negative_settlement :
    (stateAfterEvents scriptLateSit).map (fun s => mapFind s.clients "ann".toList) =
      some (some { seated := true, table := 1, seatedSince := ⟨1430⟩ }) ∧
    roundUpHours (540 - 1430) = -13 ∧
    main scriptLateSit =
      ["08:00".toList, "08:30 1 ann".toList, "23:50 2 ann 1".toList, "09:00 11 ann".toList,
       "09:00".toList, "1 -1300 -14:-50".toList] := by
  decide

end Yadro
